import Mathlib

/-!
Verification of the structural TypedDict core of the pyright repository.

The development shallowly embeds three source files:
  packages/pyright-internal/src/analyzer/typedDicts.ts
  common/diagnostics.ts (DiagnosticSink)
  analyzer/typeWalker.ts (TypeWalker)

Value types of the host language are abstracted by a type parameter `Ty`
together with a boolean assignability relation `sub : Ty → Ty → Bool`
(`sub a b` meaning the type `a` is assignable to destination type `b`),
standing in for the external collaborator `evaluator.assignType`.
Insertion-ordered TypeScript Maps are embedded as association lists with
JavaScript Map `set` semantics (replace in place, else append).
-/

/-- Association-list embedding of the TypeScript `Map.set` operation: the
first binding for the key is replaced in place, a missing key is appended. -/
def setEntry {α : Type} (m : List (String × α)) (k : String) (v : α) : List (String × α) :=
  match m with
  | [] => [(k, v)]
  | (k', v') :: rest => if k' = k then (k, v) :: rest else (k', v') :: setEntry rest k v

theorem lookup_setEntry_self {α : Type} (m : List (String × α)) (k : String) (v : α) :
    (setEntry m k v).lookup k = some v := by
  induction m with
  | nil => simp [setEntry, List.lookup]
  | cons p rest ih =>
    by_cases h : p.1 = k
    · simp [setEntry, h, List.lookup]
    · simp only [setEntry]
      rw [if_neg h]
      simp only [List.lookup]
      have : (k == p.1) = false := by
        simp [beq_iff_eq]; exact fun he => h he.symm
      simp [this, ih]

theorem lookup_setEntry_other {α : Type} (m : List (String × α)) (k k' : String) (v : α)
    (h : k' ≠ k) : (setEntry m k v).lookup k' = m.lookup k' := by
  induction m with
  | nil =>
    simp only [setEntry, List.lookup]
    have : (k' == k) = false := by simp [beq_iff_eq]; exact h
    simp [this]
  | cons p rest ih =>
    by_cases hp : p.1 = k
    · simp only [setEntry, hp, if_true, List.lookup]
      have h1 : (k' == k) = false := by simp [beq_iff_eq]; exact h
      have h2 : (k' == p.1) = false := by simp [beq_iff_eq, hp]; exact h
      simp [h1, h2]
    · simp only [setEntry]
      rw [if_neg hp]
      simp only [List.lookup]
      by_cases hq : k' = p.1
      · have : (k' == p.1) = true := by simp [beq_iff_eq, hq]
        simp [this]
      · have : (k' == p.1) = false := by simp [beq_iff_eq]; exact hq
        simp [this, ih]

theorem lookup_isSome_of_mem {α : Type} {m : List (String × α)} {p : String × α}
    (h : p ∈ m) : (m.lookup p.1).isSome = true := by
  induction m with
  | nil => cases h
  | cons q rest ih =>
    rcases List.mem_cons.mp h with h | h
    · subst h; simp [List.lookup]
    · simp only [List.lookup]
      by_cases hq : p.1 == q.1
      · simp [hq]
      · simp only [Bool.not_eq_true] at hq
        rw [hq]
        exact ih h

/-- Modelled from the spec: the fixed recursion maximum (the constant
`maxTypeRecursionCount` lives in analyzer/types.ts, which is not part of the
provided sources; only the existence of a fixed bound matters here). -/
def maxTypeRecursionCount : Nat := 20

/-- Embedding of the `TypedDictEntry` record (analyzer/types.ts interface, as
used throughout typedDicts.ts): declared value type plus the required,
read-only and transient provided flags. -/
structure TypedDictEntry (Ty : Type) where
  valueType : Ty
  isRequired : Bool
  isReadOnly : Bool
  isProvided : Bool
deriving DecidableEq, Repr

/-- Diagnostic addendum messages produced by the TypedDict checking functions
(localization catalog keys; the message text itself is irrelevant). -/
inductive TDDiag where
  | typedDictFieldUndefined (name : String)
  | typedDictFieldTypeMismatch (name : String)
  | typedDictFieldRequired (name : String)
  | typedDictFieldNotRequired (name : String)
  | typedDictFieldNotReadOnly (name : String)
  | typedDictFieldMissing (name : String)
  | memberTypeMismatch (name : String)
deriving DecidableEq, Repr

/-! ## Structural type synthesis: the clear/popitem guard

Embedding of the slice of `synthesizeTypedDictClassMethods` (typedDicts.ts)
that decides whether the `clear` and `popitem` members are synthesized.  The
source computes two flags while iterating the resolved entries — both start
`true`; `allEntriesAreNotRequired` is cleared by any required entry and
`allEntriesAreReadOnly` by any writable entry — and guards the synthesis with
`isClassFinal && allEntriesAreNotRequired && !allEntriesAreReadOnly`. -/

def allEntriesAreNotRequired {Ty : Type} (entries : List (String × TypedDictEntry Ty)) : Bool :=
  entries.foldl (fun acc p => if p.2.isRequired then false else acc) true

def allEntriesAreReadOnly {Ty : Type} (entries : List (String × TypedDictEntry Ty)) : Bool :=
  entries.foldl (fun acc p => if !p.2.isReadOnly then false else acc) true

/-- Embedding of the guard on the synthesis of the `clear` and `popitem`
members in `synthesizeTypedDictClassMethods`. -/
def synthesizesClearAndPopitem {Ty : Type} (isClassFinal : Bool)
    (entries : List (String × TypedDictEntry Ty)) : Bool :=
  isClassFinal && allEntriesAreNotRequired entries && !allEntriesAreReadOnly entries

theorem allEntriesAreNotRequired_eq {Ty : Type} (entries : List (String × TypedDictEntry Ty)) :
    allEntriesAreNotRequired entries = entries.all (fun p => !p.2.isRequired) := by
  have gen : ∀ (l : List (String × TypedDictEntry Ty)) (b : Bool),
      l.foldl (fun acc p => if p.2.isRequired then false else acc) b
        = (b && l.all (fun p => !p.2.isRequired)) := by
    intro l
    induction l with
    | nil => intro b; simp
    | cons p rest ih =>
      intro b
      simp only [List.foldl, List.all_cons]
      rw [ih]
      cases hb : p.2.isRequired <;> cases b <;> simp [hb]
  unfold allEntriesAreNotRequired
  rw [gen entries true, Bool.true_and]

theorem allEntriesAreReadOnly_eq {Ty : Type} (entries : List (String × TypedDictEntry Ty)) :
    allEntriesAreReadOnly entries = entries.all (fun p => p.2.isReadOnly) := by
  have gen : ∀ (l : List (String × TypedDictEntry Ty)) (b : Bool),
      l.foldl (fun acc p => if !p.2.isReadOnly then false else acc) b
        = (b && l.all (fun p => p.2.isReadOnly)) := by
    intro l
    induction l with
    | nil => intro b; simp
    | cons p rest ih =>
      intro b
      simp only [List.foldl, List.all_cons]
      rw [ih]
      cases hb : p.2.isReadOnly <;> cases b <;> simp [hb]
  unfold allEntriesAreReadOnly
  rw [gen entries true, Bool.true_and]

/-! ## Entry resolution: symbols, declarations and per-field flags

Embedding of the per-field work done by `getTypedDictMembersForClassRecursive`
(typedDicts.ts lines 847-877) together with the annotation classifiers
`isRequiredTypedDictVariable`, `isNotRequiredTypedDictVariable` and
`isReadOnlyTypedDictVariable` (lines 1262-1304).  A declaration is embedded by
the facts the source consults: whether it is a variable declaration, whether a
type annotation expression is attached, and the Required/NotRequired/ReadOnly
flags the external evaluator reports for that annotation. -/

structure TDVarDecl where
  isVariableDecl : Bool
  hasTypeAnnotation : Bool
  annotatedIsRequired : Bool
  annotatedIsNotRequired : Bool
  annotatedIsReadOnly : Bool
deriving DecidableEq, Repr

structure TDSymbol (Ty : Type) where
  isIgnoredForProtocolMatch : Bool
  declarations : List TDVarDecl
  effectiveType : Ty
deriving DecidableEq, Repr

def isRequiredTypedDictVariable {Ty : Type} (s : TDSymbol Ty) : Bool :=
  s.declarations.any (fun d =>
    if !d.isVariableDecl || !d.hasTypeAnnotation then false else d.annotatedIsRequired)

def isNotRequiredTypedDictVariable {Ty : Type} (s : TDSymbol Ty) : Bool :=
  s.declarations.any (fun d =>
    if !d.isVariableDecl || !d.hasTypeAnnotation then false else d.annotatedIsNotRequired)

def isReadOnlyTypedDictVariable {Ty : Type} (s : TDSymbol Ty) : Bool :=
  s.declarations.any (fun d =>
    if !d.isVariableDecl || !d.hasTypeAnnotation then false else d.annotatedIsReadOnly)

/-- Modelled from the spec: `getLastTypedDeclaredForSymbol` (symbolUtils.ts is
not part of the provided sources) returns the last declaration of the symbol
that carries a type; only declared-variable members become entries. -/
def getLastTypedDeclaredForSymbol {Ty : Type} (s : TDSymbol Ty) : Option TDVarDecl :=
  (s.declarations.filter (fun d => d.hasTypeAnnotation)).getLast?

/-- Embedding of the body of the `fields.forEach` loop of
`getTypedDictMembersForClassRecursive`: decides whether a field symbol
produces an entry and computes its flags.  `canOmit` is the owning class flag
`ClassType.isCanOmitDictValues` (a non-total class); `subst` is the
substitution induced by `buildTypeVarContextFromSpecializedClass` applied via
`applySolvedTypeVars`. -/
def typedDictEntryForSymbol {Ty : Type} (canOmit : Bool) (subst : Ty → Ty)
    (s : TDSymbol Ty) : Option (TypedDictEntry Ty) :=
  if s.isIgnoredForProtocolMatch then none
  else
    match getLastTypedDeclaredForSymbol s with
    | none => none
    | some lastDecl =>
      if !lastDecl.isVariableDecl then none
      else
        let valueType := subst s.effectiveType
        let isRequired := !canOmit
        let isRequired :=
          if isRequiredTypedDictVariable s then true
          else if isNotRequiredTypedDictVariable s then false
          else isRequired
        let isReadOnly := isReadOnlyTypedDictVariable s
        some { valueType := valueType, isRequired := isRequired,
               isReadOnly := isReadOnly, isProvided := false }

/-! ## Narrowing for key assignment

Embedding of `narrowForKeyAssignment` (typedDicts.ts lines 1231-1260) over the
slice of `ClassType` it consults: the TypedDict flag, the canonical resolved
entry table `details.typedDictEntries`, and the per-binding overlay
`typedDictNarrowedEntries`. -/

structure TDClassNarrow (Ty : Type) where
  isTypedDictClass : Bool
  typedDictEntries : Option (List (String × TypedDictEntry Ty))
  typedDictNarrowedEntries : Option (List (String × TypedDictEntry Ty))
deriving DecidableEq, Repr

/-- Modelled from the spec: `ClassType.cloneForNarrowedTypedDictEntries`
(analyzer/types.ts, not part of the provided sources) produces a copy-on-write
clone of the class carrying the given narrowed-entry map. -/
def cloneForNarrowedTypedDictEntries {Ty : Type} (c : TDClassNarrow Ty)
    (narrowedEntries : List (String × TypedDictEntry Ty)) : TDClassNarrow Ty :=
  { c with typedDictNarrowedEntries := some narrowedEntries }

/-- Embedding of `narrowForKeyAssignment`. -/
def narrowForKeyAssignment {Ty : Type} (classType : TDClassNarrow Ty) (key : String) :
    TDClassNarrow Ty :=
  if !classType.isTypedDictClass then classType
  else
    match classType.typedDictEntries with
    | none => classType
    | some entries =>
      match entries.lookup key with
      | none => classType
      | some tdEntry =>
        if tdEntry.isRequired then classType
        else
          let narrowedIsProvided :=
            match classType.typedDictNarrowedEntries with
            | some narrowed =>
              match narrowed.lookup key with
              | some narrowedTdEntry => narrowedTdEntry.isProvided
              | none => false
            | none => false
          if narrowedIsProvided then classType
          else
            let narrowedEntries :=
              match classType.typedDictNarrowedEntries with
              | some narrowed => narrowed
              | none => []
            cloneForNarrowedTypedDictEntries classType
              (setEntry narrowedEntries key
                ({ valueType := tdEntry.valueType, isRequired := false,
                   isReadOnly := tdEntry.isReadOnly, isProvided := true }))

/-! ## TypedDict-to-TypedDict assignability

Embedding of `assignTypedDictToTypedDict` (typedDicts.ts lines 879-976).  The
external `evaluator.assignType` is modelled from the spec by
`assignTypeModel`; the `AssignTypeFlags.EnforceInvariance` bit is the boolean
`enforceInvariance`.  The per-destination-field body of the `forEach` loop is
split into the two source branches (`tdMissingFieldCheck` for a field absent
from the source entries, `tdPresentFieldCheck` for a field present in both);
the whole function folds them, conjoining the consistency flag and
concatenating the diagnostic addendum messages exactly as the source
accumulates them. -/

/-- Modelled from the spec: the external collaborator `evaluator.assignType`
applied to destination type `dest` and source type `src`.  Ordinary
(covariant) assignability is the abstract relation `sub src dest`; under
`EnforceInvariance` a strict subtype must be rejected, so assignability is
required in both directions. -/
def assignTypeModel {Ty : Type} (sub : Ty → Ty → Bool) (dest src : Ty)
    (enforceInvariance : Bool) : Bool :=
  if enforceInvariance then sub src dest && sub dest src else sub src dest

/-- Embedding of the branch of `assignTypedDictToTypedDict` for a destination
field with no counterpart in the source entries (lines 894-925).  `objType` is
the result of `evaluator.getObjectType()`; `flags` is the incoming
enforce-invariance bit, passed through unchanged in this branch. -/
def tdMissingFieldCheck {Ty : Type} (sub : Ty → Ty → Bool) (objType : Ty) (flags : Bool)
    (name : String) (destEntry : TypedDictEntry Ty) : Bool × List TDDiag :=
  if destEntry.isRequired || !destEntry.isReadOnly then
    (false, [TDDiag.typedDictFieldMissing name])
  else
    if assignTypeModel sub destEntry.valueType objType flags then (true, [])
    else (false, [TDDiag.memberTypeMismatch name])

/-- Embedding of the branch of `assignTypedDictToTypedDict` for a field
declared in both entry tables (lines 926-972): the requiredness check, the
read-only-source check, and the value-type check with `EnforceInvariance`
added exactly when the destination entry is writable. -/
def tdPresentFieldCheck {Ty : Type} (sub : Ty → Ty → Bool) (flags : Bool)
    (name : String) (destEntry srcEntry : TypedDictEntry Ty) : Bool × List TDDiag :=
  let (c1, d1) :=
    if destEntry.isRequired != srcEntry.isRequired && !destEntry.isReadOnly then
      (false, [if destEntry.isRequired then TDDiag.typedDictFieldRequired name
               else TDDiag.typedDictFieldNotRequired name])
    else (true, ([] : List TDDiag))
  let (c2, d2) :=
    if !destEntry.isReadOnly && srcEntry.isReadOnly then
      (false, [TDDiag.typedDictFieldNotReadOnly name])
    else (true, ([] : List TDDiag))
  let adjustedFlags := if !destEntry.isReadOnly then true else flags
  let (c3, d3) :=
    if assignTypeModel sub destEntry.valueType srcEntry.valueType adjustedFlags then
      (true, ([] : List TDDiag))
    else (false, [TDDiag.memberTypeMismatch name])
  (c1 && c2 && c3, d1 ++ d2 ++ d3)

/-- Embedding of `assignTypedDictToTypedDict`: destination entries are checked
one by one; every failure clears the consistency flag but checking continues,
and addendum messages accumulate in iteration order. -/
def assignTypedDictToTypedDict {Ty : Type} (sub : Ty → Ty → Bool) (objType : Ty)
    (flags : Bool) (destEntries srcEntries : List (String × TypedDictEntry Ty)) :
    Bool × List TDDiag :=
  destEntries.foldl
    (fun acc p =>
      let r :=
        match srcEntries.lookup p.1 with
        | none => tdMissingFieldCheck sub objType flags p.1 p.2
        | some srcEntry => tdPresentFieldCheck sub flags p.1 p.2 srcEntry
      (acc.1 && r.1, acc.2 ++ r.2))
    (true, [])

/-! ## Construction-time assignment (`assignToTypedDict`)

Embedding of `assignToTypedDict` (typedDicts.ts lines 984-1108).  A key
argument is embedded by the only classification the source performs on it:
either a `str` literal with a known value, or anything else.  A value argument
carries its type and the `isReadOnly` flag of its `TypeResultWithNode`.  The
result models the returned class as the narrowed-entry map of the clone
(`none` for the `undefined` result; an empty map means the plain class was
returned without narrowing). -/

inductive TDKeyType where
  | strLiteral (value : String)
  | nonLiteral
deriving DecidableEq, Repr

structure TDValueArg (Ty : Type) where
  type : Ty
  isReadOnly : Bool
deriving DecidableEq, Repr

structure AssignTDState (Ty : Type) where
  isMatch : Bool
  symbolMap : List (String × TypedDictEntry Ty)
  narrowedEntries : List (String × TypedDictEntry Ty)
  diags : List TDDiag
deriving DecidableEq, Repr

/-- Embedding of the body of the `keyTypes.forEach` loop of
`assignToTypedDict` for a single key/value pair. -/
def assignTDProcessKey {Ty : Type} (sub : Ty → Ty → Bool) (st : AssignTDState Ty)
    (arg : TDKeyType × TDValueArg Ty) : AssignTDState Ty :=
  match arg.1 with
  | TDKeyType.nonLiteral => { st with isMatch := false }
  | TDKeyType.strLiteral keyValue =>
    match st.symbolMap.lookup keyValue with
    | none =>
      { st with isMatch := false,
                diags := st.diags ++ [TDDiag.typedDictFieldUndefined keyValue] }
    | some symbolEntry =>
      let st :=
        if sub arg.2.type symbolEntry.valueType then st
        else { st with isMatch := false,
                       diags := st.diags ++ [TDDiag.typedDictFieldTypeMismatch keyValue] }
      let narrowedEntry : TypedDictEntry Ty :=
        { valueType := arg.2.type, isRequired := false,
          isReadOnly := arg.2.isReadOnly, isProvided := true }
      let st :=
        if !symbolEntry.isRequired then
          { st with narrowedEntries := setEntry st.narrowedEntries keyValue narrowedEntry }
        else st
      { st with symbolMap :=
          setEntry st.symbolMap keyValue ({ symbolEntry with isProvided := true }) }

def assignTDProcessAll {Ty : Type} (sub : Ty → Ty → Bool) (st : AssignTDState Ty)
    (args : List (TDKeyType × TDValueArg Ty)) : AssignTDState Ty :=
  args.foldl (assignTDProcessKey sub) st

/-- Embedding of `assignToTypedDict`: the key/value loop, the early
`undefined` return when a key failed, the required-keys pass over the
(provided-marked) symbol map, and the final plain-or-narrowed class result.
The second component is the content of the diagnostic addendum. -/
def assignToTypedDict {Ty : Type} (sub : Ty → Ty → Bool)
    (entries : List (String × TypedDictEntry Ty))
    (args : List (TDKeyType × TDValueArg Ty)) :
    Option (List (String × TypedDictEntry Ty)) × List TDDiag :=
  let st := assignTDProcessAll sub { isMatch := true, symbolMap := entries,
                                     narrowedEntries := [], diags := [] } args
  if !st.isMatch then (none, st.diags)
  else
    let missing := st.symbolMap.filter (fun p => p.2.isRequired && !p.2.isProvided)
    let diags := st.diags ++ missing.map (fun p => TDDiag.typedDictFieldRequired p.1)
    if missing.isEmpty then (some st.narrowedEntries, diags) else (none, diags)

/-! ## Recursion-safe type walker

Embedding of `TypeWalker` (typeWalker.ts).  A possibly cyclic type graph is
represented by a function `g : Nat → TWTypeNode` assigning to every node
identifier its type-alias information and its category payload; child types
are node identifiers, so self-referential graphs are expressible.  The mutable
walker state splits into the recursion counter `rc` — passed as an explicit
argument, which is faithful because `walk` increments the private counter on
entry and decrements it on exit, so a call always restores it — and the two
persistent flags.  Per-category dispatch follows the `switch` of `walk`: leaf
categories visit nothing; the composite categories walk their children in
source order, checking the cancellation flag after each child. -/

inductive TWForm where
  | unbound
  | anyType
  | unknown
  | never
  | module
  | typeVar
  | function (parameters : List (Bool × Nat)) (isParamSpecValue : Bool)
      (returnType : Option Nat)
  | overloadedFunction (overloads : List Nat)
  | classType (isPseudoGenericClass : Bool) (tupleTypeArguments : Option (List Nat))
      (typeArguments : Option (List Nat))
  | union (subtypes : List Nat)
  | intersection (subtypes : List Nat)
deriving DecidableEq, Repr

/-- Embedding of one node of the type graph: the optional `typeAliasInfo`
(with its optional `typeArguments` list) visited before category dispatch,
and the category payload. -/
structure TWTypeNode where
  typeAliasArgs : Option (Option (List Nat))
  form : TWForm
deriving DecidableEq, Repr

structure WalkFlags where
  isWalkCanceled : Bool
  hitRecursionLimit : Bool
deriving DecidableEq, Repr

mutual

/-- Embedding of `TypeWalker.walk`: the recursion-limit guard, the
cancellation guard, the type-alias visit, and the per-category dispatch. -/
def walk (g : Nat → TWTypeNode) (rc : Nat) (fl : WalkFlags) (i : Nat) : WalkFlags :=
  if _h : rc > maxTypeRecursionCount then { fl with hitRecursionLimit := true }
  else if fl.isWalkCanceled then fl
  else
    let n := g i
    let fl1 :=
      match n.typeAliasArgs with
      | some (some typeArguments) => walkList g (rc + 1) fl typeArguments
      | _ => fl
    match n.form with
    | TWForm.unbound => fl1
    | TWForm.anyType => fl1
    | TWForm.unknown => fl1
    | TWForm.never => fl1
    | TWForm.module => fl1
    | TWForm.typeVar => fl1
    | TWForm.function parameters isParamSpecValue returnType =>
      let fl2 := walkList g (rc + 1) fl1 ((parameters.filter (fun p => p.1)).map (fun p => p.2))
      if !fl2.isWalkCanceled && !isParamSpecValue then
        match returnType with
        | some r => walk g (rc + 1) fl2 r
        | none => fl2
      else fl2
    | TWForm.overloadedFunction overloads => walkList g (rc + 1) fl1 overloads
    | TWForm.classType isPseudoGenericClass tupleTypeArguments typeArguments =>
      if !isPseudoGenericClass then
        match tupleTypeArguments with
        | some typeArgs => walkList g (rc + 1) fl1 typeArgs
        | none =>
          match typeArguments with
          | some typeArgs => walkList g (rc + 1) fl1 typeArgs
          | none => fl1
      else fl1
    | TWForm.union subtypes => walkList g (rc + 1) fl1 subtypes
    | TWForm.intersection subtypes => walkList g (rc + 1) fl1 subtypes
termination_by (maxTypeRecursionCount + 1 - rc, 0)
decreasing_by
  all_goals simp_wf
  all_goals exact Prod.Lex.left _ _ (by omega)

/-- Embedding of the child-visiting loops shared by `visitTypeAlias`,
`visitFunction`, `visitOverloadedFunction`, `visitClass`, `visitUnion` and
`visitIntersection`: walk each child in order and stop early once the
cancellation flag is observed set. -/
def walkList (g : Nat → TWTypeNode) (rc : Nat) (fl : WalkFlags) (ids : List Nat) : WalkFlags :=
  match ids with
  | [] => fl
  | i :: rest =>
    let fl := walk g rc fl i
    if fl.isWalkCanceled then fl else walkList g rc fl rest
termination_by (maxTypeRecursionCount + 1 - rc, ids.length + 1)
decreasing_by
  all_goals simp_wf
  all_goals first
    | exact Prod.Lex.left _ _ (by omega)
    | exact Prod.Lex.right _ (by omega)

end

/-! ## Entry resolution and the canonical cache

Embedding of `getTypedDictMembersForClassRecursive` (the inheritance merge)
and `getTypedDictMembersForClass` (the cache plus the fresh per-call
specialized copy), typedDicts.ts lines 701-744 and 821-877.  A class is
embedded by the data those functions consult: the TypedDict base classes (a
tree; cyclic graphs are tolerated by the source only through the recursion
bound, which is kept), the own field symbols in declaration order, the
`CanOmitDictValues` flag, and the substitution functions standing in for
`partiallySpecializeType` / `applySolvedTypeVars` over the external type-var
context. -/

inductive TDClassCore (Ty : Type) where
  | mk (baseClasses : List (TDClassCore Ty)) (fields : List (String × TDSymbol Ty))
      (canOmitValues : Bool) (subst : Ty → Ty)

mutual

/-- Embedding of `getTypedDictMembersForClassRecursive`: bounded recursion
over the base classes first (so derived declarations shadow inherited ones in
the shared key map), then the own fields of the class. -/
def getTypedDictMembersForClassRecursive {Ty : Type} (c : TDClassCore Ty)
    (keyMap : List (String × TypedDictEntry Ty)) (recursionCount : Nat) :
    List (String × TypedDictEntry Ty) :=
  if recursionCount > maxTypeRecursionCount then keyMap
  else
    match c with
    | TDClassCore.mk baseClasses fields canOmitValues subst =>
      let keyMap := tdMembersOfBases baseClasses keyMap (recursionCount + 1)
      fields.foldl
        (fun km p =>
          match typedDictEntryForSymbol canOmitValues subst p.2 with
          | some entry => setEntry km p.1 entry
          | none => km)
        keyMap

/-- Embedding of the `baseClasses.forEach` loop of
`getTypedDictMembersForClassRecursive`. -/
def tdMembersOfBases {Ty : Type} (bases : List (TDClassCore Ty))
    (keyMap : List (String × TypedDictEntry Ty)) (recursionCount : Nat) :
    List (String × TypedDictEntry Ty) :=
  match bases with
  | [] => keyMap
  | b :: rest =>
    tdMembersOfBases rest (getTypedDictMembersForClassRecursive b keyMap recursionCount)
      recursionCount

end

/-- Embedding of the slice of `ClassType` consulted by
`getTypedDictMembersForClass` and the functions built on it: the canonical
entry cache `details.typedDictEntries`, the partial-view flag, the narrowed
overlay, and the specialization substitution obtained from
`buildTypeVarContextFromSpecializedClass`. -/
structure TDClassFull (Ty : Type) where
  core : TDClassCore Ty
  typedDictEntries : Option (List (String × TypedDictEntry Ty))
  isTypedDictPartial : Bool
  typedDictNarrowedEntries : Option (List (String × TypedDictEntry Ty))
  specializedSubst : Ty → Ty

/-- Embedding of `getTypedDictMembersForClass`: fill the canonical cache on
first use, then build a fresh specialized copy of every entry for the caller
(applying the partial-view conversion and, on request, the narrowed
overlay).  The returned class carries the possibly freshly filled cache; the
source performs that fill as its only mutation of the canonical type. -/
def getTypedDictMembersForClass {Ty : Type} (neverType : Ty) (classType : TDClassFull Ty)
    (allowNarrowed : Bool) :
    TDClassFull Ty × List (String × TypedDictEntry Ty) :=
  let classType :=
    match classType.typedDictEntries with
    | some _ => classType
    | none =>
      { classType with
          typedDictEntries := some (getTypedDictMembersForClassRecursive classType.core [] 0) }
  let cached := classType.typedDictEntries.getD []
  let entries := cached.map (fun p =>
    let tdEntry := { p.2 with valueType := classType.specializedSubst p.2.valueType }
    let tdEntry :=
      if classType.isTypedDictPartial then
        let tdEntry := { tdEntry with isRequired := false }
        if tdEntry.isReadOnly then { tdEntry with valueType := neverType }
        else { tdEntry with isReadOnly := true }
      else tdEntry
    (p.1, tdEntry))
  let entries :=
    if allowNarrowed then
      match classType.typedDictNarrowedEntries with
      | some narrowed =>
        narrowed.foldl
          (fun es p =>
            setEntry es p.1 ({ p.2 with valueType := classType.specializedSubst p.2.valueType }))
          entries
      | none => entries
    else entries
  (classType, entries)

/-- Embedding of the call chain `assignToTypedDict` performs on a class: it
obtains the per-call specialized copy from `getTypedDictMembersForClass` and
runs the key/value checks on that copy; the class itself is only touched by
the cache fill inside `getTypedDictMembersForClass`. -/
def assignToTypedDictOnClass {Ty : Type} (sub : Ty → Ty → Bool) (neverType : Ty)
    (classType : TDClassFull Ty) (args : List (TDKeyType × TDValueArg Ty)) :
    TDClassFull Ty × (Option (List (String × TypedDictEntry Ty)) × List TDDiag) :=
  let r := getTypedDictMembersForClass neverType classType false
  (r.1, assignToTypedDict sub r.2 args)

/-! ## Indexed access (`getTypeOfIndexedTypedDict`)

Embedding of `getTypeOfIndexedTypedDict` (typedDicts.ts lines 1110-1227).
The index expression type is embedded as the list of union members that
`mapSubtypes` iterates, each classified the way the source classifies it; the
combined resulting type is the list of per-member results.  The external
`evaluator.addDiagnostic` call at the end is modelled by the optional emitted
(rule, message) pair in the second component. -/

inductive ArgumentCategoryModel where
  | simple
  | unpackedList
  | unpackedDictionary
deriving DecidableEq, Repr

structure IndexArgItem where
  hasName : Bool
  argumentCategory : ArgumentCategoryModel
deriving DecidableEq, Repr

structure IndexNodeModel where
  items : List IndexArgItem
  trailingComma : Bool
deriving DecidableEq, Repr

inductive EvalMethodModel where
  | get
  | set
  | del
deriving DecidableEq, Repr

inductive TDIndexMsg where
  | keyUndefined (name : String)
  | keyNotRequired (name : String)
  | keyReadOnly (name : String)
  | keyRequiredDeleted (name : String)
  | typeNotStringLiteral
  | assignTypeFailed (name : String)
deriving DecidableEq, Repr

structure EvaluatorUsageModel (Ty : Type) where
  method : EvalMethodModel
  setType : Option Ty
  setExpectedTypeDiag : Option (List TDIndexMsg)
deriving DecidableEq, Repr

inductive IdxSubtype (Ty : Type) where
  | anyOrUnknown (t : Ty)
  | strLiteral (value : String)
  | strPlain
  | nonString (t : Ty)
deriving DecidableEq, Repr

inductive IdxResultPart (Ty : Type) where
  | keptSubtype (t : Ty)
  | unknown
  | entryValue (t : Ty)
deriving DecidableEq, Repr

inductive DiagnosticRuleModel where
  | reportTypedDictNotRequiredAccess
  | reportGeneralTypeIssues
deriving DecidableEq, Repr

inductive TDIndexDiagKind where
  | typeArgsMismatchOne
  | typedDictSet
  | typedDictDelete
  | typedDictAccess
deriving DecidableEq, Repr

structure IndexTypeResult (Ty : Type) where
  resultParts : List (IdxResultPart Ty)
  isIncomplete : Bool
deriving DecidableEq, Repr

/-- Embedding of the body of the `mapSubtypes` callback of
`getTypeOfIndexedTypedDict` for one union member, threading the accumulated
result parts, the local diagnostic addendum messages, and the
`allDiagsInvolveNotRequiredKeys` flag.  On a failing write-access
`evaluator.assignType` call the external evaluator populates the passed
addendum; that contribution is modelled by the `assignTypeFailed` marker
message. -/
def indexedTDSubtypeStep {Ty : Type} (sub : Ty → Ty → Bool) (anyType : Ty)
    (entries : List (String × TypedDictEntry Ty)) (usage : EvaluatorUsageModel Ty)
    (inTryBlock : Bool)
    (acc : List (IdxResultPart Ty) × List TDIndexMsg × Bool) (st : IdxSubtype Ty) :
    List (IdxResultPart Ty) × List TDIndexMsg × Bool :=
  match st with
  | IdxSubtype.anyOrUnknown t => (acc.1 ++ [IdxResultPart.keptSubtype t], acc.2.1, acc.2.2)
  | IdxSubtype.strPlain => (acc.1 ++ [IdxResultPart.unknown], acc.2.1, acc.2.2)
  | IdxSubtype.nonString _ =>
    (acc.1 ++ [IdxResultPart.unknown], acc.2.1 ++ [TDIndexMsg.typeNotStringLiteral], false)
  | IdxSubtype.strLiteral entryName =>
    match entries.lookup entryName with
    | none =>
      (acc.1 ++ [IdxResultPart.unknown], acc.2.1 ++ [TDIndexMsg.keyUndefined entryName], false)
    | some entry =>
      let msgs := acc.2.1
      let flag := acc.2.2
      let msgs :=
        if !(entry.isRequired || entry.isProvided) && usage.method = EvalMethodModel.get then
          if !inTryBlock then msgs ++ [TDIndexMsg.keyNotRequired entryName] else msgs
        else if entry.isReadOnly && ¬usage.method = EvalMethodModel.get then
          msgs ++ [TDIndexMsg.keyReadOnly entryName]
        else msgs
      let r :=
        if usage.method = EvalMethodModel.set then
          if sub (usage.setType.getD anyType) entry.valueType then (msgs, flag)
          else (msgs ++ [TDIndexMsg.assignTypeFailed entryName], false)
        else if usage.method = EvalMethodModel.del ∧ entry.isRequired then
          (msgs ++ [TDIndexMsg.keyRequiredDeleted entryName], false)
        else (msgs, flag)
      (acc.1 ++ [IdxResultPart.entryValue entry.valueType], r.1, r.2)

/-- Embedding of `getTypeOfIndexedTypedDict`. -/
def getTypeOfIndexedTypedDict {Ty : Type} (sub : Ty → Ty → Bool) (neverType anyType : Ty)
    (classType : TDClassFull Ty) (node : IndexNodeModel) (usage : EvaluatorUsageModel Ty)
    (indexSubtypes : List (IdxSubtype Ty)) (indexIsIncomplete : Bool) (inTryBlock : Bool) :
    Option (IndexTypeResult Ty) × Option (DiagnosticRuleModel × TDIndexDiagKind) :=
  match node.items with
  | [item] =>
    if node.trailingComma || item.hasName
        || ¬item.argumentCategory = ArgumentCategoryModel.simple then
      (none, none)
    else
      let entries :=
        (getTypedDictMembersForClass neverType classType
          (usage.method = EvalMethodModel.get)).2
      let folded :=
        indexSubtypes.foldl (indexedTDSubtypeStep sub anyType entries usage inTryBlock)
          ([], [], true)
      let diag :=
        match usage.setExpectedTypeDiag with
        | some expected =>
          if !folded.2.1.isEmpty && !expected.isEmpty then expected else folded.2.1
        | none => folded.2.1
      let emitted :=
        if !diag.isEmpty then
          some
            ((if folded.2.2 then DiagnosticRuleModel.reportTypedDictNotRequiredAccess
              else DiagnosticRuleModel.reportGeneralTypeIssues),
             (match usage.method with
              | EvalMethodModel.set => TDIndexDiagKind.typedDictSet
              | EvalMethodModel.del => TDIndexDiagKind.typedDictDelete
              | EvalMethodModel.get => TDIndexDiagKind.typedDictAccess))
        else none
      (some { resultParts := folded.1, isIncomplete := indexIsIncomplete }, emitted)
  | _ =>
    (some { resultParts := [IdxResultPart.unknown], isIncomplete := false },
     some (DiagnosticRuleModel.reportGeneralTypeIssues, TDIndexDiagKind.typeArgsMismatchOne))

/-! ## Diagnostic sink

Embedding of `DiagnosticSink` (common/diagnostics.ts): `addDiagnostic`
deduplicates through a map keyed by the template string
`start.line,start.character-end.line-end.character:hash(message)` followed by
a closing brace, and `fetchAndClear` hands back the list while resetting both
the list and the map.  The external `hashString` (stringUtils.ts) is a
parameter; the intended dedup-by-message behaviour needs it collision-free on
the messages in play, so the theorems assume it injective. -/

structure DiagPosition where
  line : Nat
  character : Nat
deriving DecidableEq, Repr

/-- Embedding of `Range`; the source field `end` is called `stop` because
`end` is a Lean keyword. -/
structure DiagRange where
  start : DiagPosition
  stop : DiagPosition
deriving DecidableEq, Repr

inductive DiagnosticCategoryModel where
  | error
  | warning
  | information
  | unusedCode
  | unreachableCode
  | deprecated
deriving DecidableEq, Repr

structure Diagnostic where
  category : DiagnosticCategoryModel
  message : String
  range : DiagRange
deriving DecidableEq, Repr

/-- Embedding of the dedup key template string built by `addDiagnostic`
(including its trailing stray brace). -/
def dedupKey (hashString : String → String) (diag : Diagnostic) : String :=
  Nat.repr diag.range.start.line ++ "," ++ Nat.repr diag.range.start.character ++ "-" ++
    Nat.repr diag.range.stop.line ++ "-" ++ Nat.repr diag.range.stop.character ++ ":" ++
    hashString diag.message ++ "\x7d"

structure DiagnosticSink where
  diagnosticList : List Diagnostic
  diagnosticMap : List (String × Diagnostic)
deriving DecidableEq, Repr

/-- Embedding of `DiagnosticSink.addDiagnostic`: append and record only when
the key is not yet in the map. -/
def addDiagnostic (hashString : String → String) (sink : DiagnosticSink)
    (diag : Diagnostic) : DiagnosticSink :=
  let key := dedupKey hashString diag
  match sink.diagnosticMap.lookup key with
  | some _ => sink
  | none =>
    { diagnosticList := sink.diagnosticList ++ [diag],
      diagnosticMap := setEntry sink.diagnosticMap key diag }

/-- Embedding of `DiagnosticSink.fetchAndClear`: the previous list is
returned, the list and the dedup map are reset. -/
def fetchAndClear (sink : DiagnosticSink) : List Diagnostic × DiagnosticSink :=
  (sink.diagnosticList, { diagnosticList := [], diagnosticMap := [] })

/-! Decimal-representation facts used to show the dedup key determines the
range and the hashed message. -/

theorem digitChar_isDigit {m : Nat} (h : m < 10) : (Nat.digitChar m).isDigit = true := by
  interval_cases m <;> decide

theorem digitChar_toNat_sub {m : Nat} (h : m < 10) : (Nat.digitChar m).toNat - 48 = m := by
  interval_cases m <;> decide

theorem toDigitsCore_acc (fuel n : Nat) (acc : List Char) :
    Nat.toDigitsCore 10 fuel n acc = Nat.toDigitsCore 10 fuel n [] ++ acc := by
  induction fuel generalizing n acc with
  | zero => simp [Nat.toDigitsCore]
  | succ fuel ih =>
    simp only [Nat.toDigitsCore]
    by_cases h : n / 10 = 0
    · simp [h]
    · simp only [h, if_false]
      rw [ih (n / 10) (Nat.digitChar (n % 10) :: acc), ih (n / 10) [Nat.digitChar (n % 10)]]
      simp

theorem toDigitsCore_digits (fuel : Nat) :
    ∀ (n : Nat) (acc : List Char), (∀ c ∈ acc, c.isDigit = true) →
      ∀ c ∈ Nat.toDigitsCore 10 fuel n acc, c.isDigit = true := by
  induction fuel with
  | zero => intro n acc hacc; simpa [Nat.toDigitsCore] using hacc
  | succ fuel ih =>
    intro n acc hacc c hc
    simp only [Nat.toDigitsCore] at hc
    by_cases h : n / 10 = 0
    · simp only [h, if_true] at hc
      rcases List.mem_cons.mp hc with h1 | h1
      · subst h1; exact digitChar_isDigit (Nat.mod_lt n (by norm_num))
      · exact hacc c h1
    · simp only [h, if_false] at hc
      refine ih (n / 10) (Nat.digitChar (n % 10) :: acc) ?_ c hc
      intro c' hc'
      rcases List.mem_cons.mp hc' with h1 | h1
      · subst h1; exact digitChar_isDigit (Nat.mod_lt n (by norm_num))
      · exact hacc c' h1

def decimalValue : List Char → Nat
  | [] => 0
  | c :: cs => (c.toNat - 48) * 10 ^ cs.length + decimalValue cs

theorem decimalValue_append_singleton (xs : List Char) (c : Char) :
    decimalValue (xs ++ [c]) = 10 * decimalValue xs + (c.toNat - 48) := by
  induction xs with
  | nil => simp [decimalValue]
  | cons x rest ih =>
    simp only [List.cons_append, decimalValue, ih, List.append_eq, List.length_append,
      List.length_cons, List.length_nil]
    ring

theorem toDigitsCore_val (fuel : Nat) :
    ∀ n : Nat, n < fuel → decimalValue (Nat.toDigitsCore 10 fuel n []) = n := by
  induction fuel with
  | zero => intro n hn; omega
  | succ fuel ih =>
    intro n hn
    simp only [Nat.toDigitsCore]
    by_cases h : n / 10 = 0
    · have hlt : n < 10 := by omega
      have hmod : n % 10 = n := Nat.mod_eq_of_lt hlt
      simp [h, decimalValue, hmod, digitChar_toNat_sub hlt]
    · simp only [h, if_false]
      rw [toDigitsCore_acc]
      rw [decimalValue_append_singleton]
      have hdivlt : n / 10 < n := Nat.div_lt_self (by omega) (by norm_num)
      rw [ih (n / 10) (by omega)]
      rw [digitChar_toNat_sub (Nat.mod_lt n (by norm_num))]
      omega

theorem natRepr_digits (n : Nat) : ∀ c ∈ (Nat.repr n).data, c.isDigit = true := by
  intro c hc
  have : (Nat.repr n).data = Nat.toDigitsCore 10 (n + 1) n [] := rfl
  rw [this] at hc
  exact toDigitsCore_digits (n + 1) n [] (by intro c h; cases h) c hc

theorem natRepr_inj {n m : Nat} (h : Nat.repr n = Nat.repr m) : n = m := by
  have hd : Nat.toDigitsCore 10 (n + 1) n [] = Nat.toDigitsCore 10 (m + 1) m [] := by
    have := congrArg String.data h
    exact this
  have h1 := toDigitsCore_val (n + 1) n (by omega)
  have h2 := toDigitsCore_val (m + 1) m (by omega)
  rw [hd] at h1
  rw [h2] at h1
  exact h1.symm

theorem append_sep_inj (sep : Char) (hsep : sep.isDigit = false) :
    ∀ (a1 a2 r1 r2 : List Char), (∀ c ∈ a1, c.isDigit = true) → (∀ c ∈ a2, c.isDigit = true) →
      a1 ++ sep :: r1 = a2 ++ sep :: r2 → a1 = a2 ∧ r1 = r2 := by
  intro a1
  induction a1 with
  | nil =>
    intro a2 r1 r2 _ h2 heq
    cases a2 with
    | nil => simpa using heq
    | cons b bs =>
      simp only [List.nil_append, List.cons_append, List.cons.injEq] at heq
      exfalso
      have hb : b.isDigit = true := h2 b (List.mem_cons_self b bs)
      rw [← heq.1] at hb
      rw [hsep] at hb
      cases hb
  | cons a as ih =>
    intro a2 r1 r2 h1 h2 heq
    cases a2 with
    | nil =>
      simp only [List.cons_append, List.nil_append, List.cons.injEq] at heq
      exfalso
      have ha : a.isDigit = true := h1 a (List.mem_cons_self a as)
      rw [heq.1] at ha
      rw [hsep] at ha
      cases ha
    | cons b bs =>
      simp only [List.cons_append, List.cons.injEq] at heq
      obtain ⟨hab, hrest⟩ := heq
      have := ih bs r1 r2 (fun c hc => h1 c (List.mem_cons_of_mem a hc))
        (fun c hc => h2 c (List.mem_cons_of_mem b hc)) hrest
      exact ⟨by rw [hab, this.1], this.2⟩

theorem dedupKey_inj {hashString : String → String}
    (hinj : Function.Injective hashString) {d1 d2 : Diagnostic}
    (h : dedupKey hashString d1 = dedupKey hashString d2) :
    d1.range = d2.range ∧ d1.message = d2.message := by
  have hd := congrArg String.data h
  simp only [dedupKey, String.data_append] at hd
  simp only [List.append_assoc, List.singleton_append] at hd
  have s1 := append_sep_inj ',' (by decide) _ _ _ _
    (natRepr_digits d1.range.start.line) (natRepr_digits d2.range.start.line) hd
  have s2 := append_sep_inj '-' (by decide) _ _ _ _
    (natRepr_digits d1.range.start.character) (natRepr_digits d2.range.start.character) s1.2
  have s3 := append_sep_inj '-' (by decide) _ _ _ _
    (natRepr_digits d1.range.stop.line) (natRepr_digits d2.range.stop.line) s2.2
  have s4 := append_sep_inj ':' (by decide) _ _ _ _
    (natRepr_digits d1.range.stop.character) (natRepr_digits d2.range.stop.character) s3.2
  have hhash : hashString d1.message = hashString d2.message := by
    have happ : (hashString d1.message).data ++ ['\x7d']
        = (hashString d2.message).data ++ ['\x7d'] := s4.2
    exact String.ext (List.append_cancel_right happ)
  have hmsg : d1.message = d2.message := hinj hhash
  have hl1 : d1.range.start.line = d2.range.start.line :=
    natRepr_inj (String.ext s1.1)
  have hc1 : d1.range.start.character = d2.range.start.character :=
    natRepr_inj (String.ext s2.1)
  have hl2 : d1.range.stop.line = d2.range.stop.line :=
    natRepr_inj (String.ext s3.1)
  have hc2 : d1.range.stop.character = d2.range.stop.character :=
    natRepr_inj (String.ext s4.1)
  refine ⟨?_, hmsg⟩
  cases d1 with
  | mk cat1 msg1 r1 =>
    cases d2 with
    | mk cat2 msg2 r2 =>
      cases r1 with
      | mk s1p e1p =>
        cases r2 with
        | mk s2p e2p =>
          cases s1p; cases s2p; cases e1p; cases e2p
          simp_all

/-! ## Claim C4 -/

/-- Claim C4 (amended): `synthesizeTypedDictClassMethods` adds `clear` and
`popitem` exactly when the type is final, every field is optional, and at
least one field is writable (equivalently: not every field is read-only); the
original claim required every field to be writable. -/
theorem synthesizesClearAndPopitem_iff {Ty : Type} (isClassFinal : Bool)
    (entries : List (String × TypedDictEntry Ty)) :
    synthesizesClearAndPopitem isClassFinal entries = true ↔
      isClassFinal = true ∧ (∀ p ∈ entries, p.2.isRequired = false) ∧
        ∃ p ∈ entries, p.2.isReadOnly = false := by
  unfold synthesizesClearAndPopitem
  rw [allEntriesAreNotRequired_eq, allEntriesAreReadOnly_eq]
  simp only [Bool.and_eq_true, Bool.not_eq_true', List.all_eq_true, List.all_eq_false,
    Bool.not_eq_true, Prod.forall, Prod.exists]
  exact and_assoc

def c4Entries : List (String × TypedDictEntry Nat) :=
  [("a", { valueType := 0, isRequired := false, isReadOnly := false, isProvided := false }),
   ("b", { valueType := 0, isRequired := false, isReadOnly := true, isProvided := false })]

/-- Claim C4 counterexample: a final type whose fields are all optional, one
writable and one read-only, synthesizes `clear` and `popitem` even though not
every field is writable — refuting the claimed "every field is writable"
condition at a concrete input. -/
theorem synthesizesClearAndPopitem_mixed_cex :
    synthesizesClearAndPopitem true c4Entries = true ∧
      ¬(∀ p ∈ c4Entries, p.2.isReadOnly = false) := by
  constructor
  · decide
  · intro hall
    have := hall ("b", ⟨0, false, true, false⟩) (by simp [c4Entries])
    simp at this

/-! ## Claim C5 -/

/-- Claim C5: for every field produced by entry resolution, the `isRequired`
flag defaults to the negation of the owning class `canOmitValuesByDefault`
flag when no Required/NotRequired annotation is present; an explicit Required
annotation forces `true` and an explicit NotRequired annotation forces
`false`, regardless of the class-level totality default (the source checks
Required first, so the NotRequired case is stated for symbols without a
Required annotation). -/
theorem typedDictEntry_isRequired_policy {Ty : Type} (canOmit : Bool) (subst : Ty → Ty)
    (s : TDSymbol Ty) (entry : TypedDictEntry Ty)
    (h : typedDictEntryForSymbol canOmit subst s = some entry) :
    (isRequiredTypedDictVariable s = false → isNotRequiredTypedDictVariable s = false →
        entry.isRequired = !canOmit) ∧
    (isRequiredTypedDictVariable s = true → entry.isRequired = true) ∧
    (isRequiredTypedDictVariable s = false → isNotRequiredTypedDictVariable s = true →
        entry.isRequired = false) := by
  by_cases hig : s.isIgnoredForProtocolMatch = true
  · simp [typedDictEntryForSymbol, hig] at h
  · rw [Bool.not_eq_true] at hig
    rcases hlast : getLastTypedDeclaredForSymbol s with _ | lastDecl
    · simp [typedDictEntryForSymbol, hig, hlast] at h
    · by_cases hvar : lastDecl.isVariableDecl = true
      · simp only [typedDictEntryForSymbol, hig, Bool.false_eq_true, if_false, hlast, hvar,
          Bool.not_true, Option.some.injEq] at h
        subst h
        refine ⟨?_, ?_, ?_⟩
        · intro h1 h2; simp [h1, h2]
        · intro h1; simp [h1]
        · intro h1 h2; simp [h1, h2]
      · rw [Bool.not_eq_true] at hvar
        simp [typedDictEntryForSymbol, hig, hlast, hvar] at h

def c5DeclPlain : TDVarDecl :=
  { isVariableDecl := true, hasTypeAnnotation := true, annotatedIsRequired := false,
    annotatedIsNotRequired := false, annotatedIsReadOnly := false }

def c5SymPlain : TDSymbol Nat :=
  { isIgnoredForProtocolMatch := false, declarations := [c5DeclPlain], effectiveType := 7 }

def c5SymRequired : TDSymbol Nat :=
  { isIgnoredForProtocolMatch := false,
    declarations := [{ c5DeclPlain with annotatedIsRequired := true }], effectiveType := 7 }

def c5SymNotRequired : TDSymbol Nat :=
  { isIgnoredForProtocolMatch := false,
    declarations := [{ c5DeclPlain with annotatedIsNotRequired := true }], effectiveType := 7 }

/-- Claim C5 witness: the policy theorem evaluated at concrete symbols — an
unannotated field of a non-total class is optional, an explicitly Required
field of a non-total class is required, and an explicitly NotRequired field of
a total class is optional. -/
theorem typedDictEntry_isRequired_policy_witness :
    (({ valueType := 7, isRequired := false, isReadOnly := false, isProvided := false } :
        TypedDictEntry Nat).isRequired = !true) ∧
    (({ valueType := 7, isRequired := true, isReadOnly := false, isProvided := false } :
        TypedDictEntry Nat).isRequired = true) ∧
    (({ valueType := 7, isRequired := false, isReadOnly := false, isProvided := false } :
        TypedDictEntry Nat).isRequired = false) :=
  ⟨(typedDictEntry_isRequired_policy true id c5SymPlain _ rfl).1 (by decide) (by decide),
   (typedDictEntry_isRequired_policy true id c5SymRequired _ rfl).2.1 (by decide),
   (typedDictEntry_isRequired_policy false id c5SymNotRequired _ rfl).2.2 (by decide) (by decide)⟩

/-! ## Claim C6 -/

/-- Claim C6: `narrowForKeyAssignment` is idempotent — applying it to its own
result for the same key returns that result unchanged — and it returns its
input unchanged when the resolved entry table is absent, when the key does not
name a field, and when the key names a required field. -/
theorem narrowForKeyAssignment_idempotent {Ty : Type} (c : TDClassNarrow Ty) (key : String) :
    (narrowForKeyAssignment (narrowForKeyAssignment c key) key = narrowForKeyAssignment c key) ∧
    (c.typedDictEntries = none → narrowForKeyAssignment c key = c) ∧
    (∀ entries, c.typedDictEntries = some entries → entries.lookup key = none →
        narrowForKeyAssignment c key = c) ∧
    (∀ entries e, c.typedDictEntries = some entries → entries.lookup key = some e →
        e.isRequired = true → narrowForKeyAssignment c key = c) := by
  by_cases htd : c.isTypedDictClass = true
  case neg =>
    rw [Bool.not_eq_true] at htd
    have h0 : narrowForKeyAssignment c key = c := by simp [narrowForKeyAssignment, htd]
    refine ⟨?_, fun _ => h0, fun _ _ _ => h0, fun _ _ _ _ _ => h0⟩
    rw [h0, h0]
  case pos =>
    rcases hentries : c.typedDictEntries with _ | entries
    · have h0 : narrowForKeyAssignment c key = c := by
        simp [narrowForKeyAssignment, htd, hentries]
      refine ⟨?_, fun _ => h0, ?_, ?_⟩
      · rw [h0, h0]
      · intro entries h; cases h
      · intro entries e h; cases h
    · rcases hlook : entries.lookup key with _ | tdEntry
      · have h0 : narrowForKeyAssignment c key = c := by
          simp [narrowForKeyAssignment, htd, hentries, hlook]
        refine ⟨?_, ?_, ?_, ?_⟩
        · rw [h0, h0]
        · intro h; cases h
        · intro entries2 h
          injection h with h; subst h
          intro _; exact h0
        · intro entries2 e h hlk hreq2
          injection h with h
      · by_cases hreq : tdEntry.isRequired = true
        · have h0 : narrowForKeyAssignment c key = c := by
            simp [narrowForKeyAssignment, htd, hentries, hlook, hreq]
          refine ⟨?_, ?_, ?_, ?_⟩
          · rw [h0, h0]
          · intro h; cases h
          · intro entries2 h hlk
            injection h with h
          · intro _ _ _ _ _; exact h0
        · rw [Bool.not_eq_true] at hreq
          have side2 : some entries = none → narrowForKeyAssignment c key = c := by
            intro h; cases h
          have side3 : ∀ entries2, some entries = some entries2 →
              entries2.lookup key = none → narrowForKeyAssignment c key = c := by
            intro entries2 h hlk
            injection h with h; subst h
            simp [hlook] at hlk
          have side4 : ∀ entries2 e, some entries = some entries2 →
              entries2.lookup key = some e → e.isRequired = true →
              narrowForKeyAssignment c key = c := by
            intro entries2 e h hlk hr
            injection h with h; subst h
            rw [hlook] at hlk; injection hlk with hlk; subst hlk
            simp [hreq] at hr
          refine ⟨?_, side2, side3, side4⟩
          rcases hnarrow : c.typedDictNarrowedEntries with _ | narrowed
          · have h1 : narrowForKeyAssignment c key =
                cloneForNarrowedTypedDictEntries c
                  (setEntry [] key
                    ({ valueType := tdEntry.valueType, isRequired := false,
                       isReadOnly := tdEntry.isReadOnly, isProvided := true })) := by
              simp [narrowForKeyAssignment, htd, hentries, hlook, hreq, hnarrow]
            rw [h1]
            simp [narrowForKeyAssignment, cloneForNarrowedTypedDictEntries, htd, hentries,
              hlook, hreq, lookup_setEntry_self]
          · rcases hnlook : narrowed.lookup key with _ | narrowedTdEntry
            · have h1 : narrowForKeyAssignment c key =
                  cloneForNarrowedTypedDictEntries c
                    (setEntry narrowed key
                      ({ valueType := tdEntry.valueType, isRequired := false,
                         isReadOnly := tdEntry.isReadOnly, isProvided := true })) := by
                simp [narrowForKeyAssignment, htd, hentries, hlook, hreq, hnarrow, hnlook]
              rw [h1]
              simp [narrowForKeyAssignment, cloneForNarrowedTypedDictEntries, htd, hentries,
                hlook, hreq, lookup_setEntry_self]
            · by_cases hprov : narrowedTdEntry.isProvided = true
              · have h0 : narrowForKeyAssignment c key = c := by
                  simp [narrowForKeyAssignment, htd, hentries, hlook, hreq, hnarrow, hnlook,
                    hprov]
                rw [h0, h0]
              · rw [Bool.not_eq_true] at hprov
                have h1 : narrowForKeyAssignment c key =
                    cloneForNarrowedTypedDictEntries c
                      (setEntry narrowed key
                        ({ valueType := tdEntry.valueType, isRequired := false,
                           isReadOnly := tdEntry.isReadOnly, isProvided := true })) := by
                  simp [narrowForKeyAssignment, htd, hentries, hlook, hreq, hnarrow, hnlook,
                    hprov]
                rw [h1]
                simp [narrowForKeyAssignment, cloneForNarrowedTypedDictEntries, htd, hentries,
                  hlook, hreq, lookup_setEntry_self]

def c6Class : TDClassNarrow Nat :=
  { isTypedDictClass := true,
    typedDictEntries := some
      [("x", { valueType := 1, isRequired := true, isReadOnly := false, isProvided := false }),
       ("label", { valueType := 2, isRequired := false, isReadOnly := false,
                   isProvided := false })],
    typedDictNarrowedEntries := none }

/-- Claim C6 witness: the idempotence and no-op cases evaluated at a concrete
class — narrowing the optional key `label` twice equals narrowing it once, a
class without a resolved entry table is unchanged, an unknown key is
unchanged, and the required key `x` is unchanged. -/
theorem narrowForKeyAssignment_idempotent_witness :
    (narrowForKeyAssignment (narrowForKeyAssignment c6Class "label") "label"
        = narrowForKeyAssignment c6Class "label") ∧
    (narrowForKeyAssignment ({ c6Class with typedDictEntries := none }) "label"
        = { c6Class with typedDictEntries := none }) ∧
    (narrowForKeyAssignment c6Class "zzz" = c6Class) ∧
    (narrowForKeyAssignment c6Class "x" = c6Class) :=
  ⟨(narrowForKeyAssignment_idempotent c6Class "label").1,
   (narrowForKeyAssignment_idempotent ({ c6Class with typedDictEntries := none }) "label").2.1
     rfl,
   (narrowForKeyAssignment_idempotent c6Class "zzz").2.2.1
     [("x", ⟨1, true, false, false⟩), ("label", ⟨2, false, false, false⟩)] rfl (by decide),
   (narrowForKeyAssignment_idempotent c6Class "x").2.2.2
     [("x", ⟨1, true, false, false⟩), ("label", ⟨2, false, false, false⟩)]
     ⟨1, true, false, false⟩ rfl (by decide) (by decide)⟩

/-! ## Claim C2 -/

/-- Claim C2: in `assignTypedDictToTypedDict`, for a field declared in both
entry tables whose source value type is a strict subtype of the destination
value type (assignable one way, not the other), the per-field check rejects it
when the destination field is writable (invariance) and accepts it when the
destination field is read-only (ordinary covariant assignability); on
singleton tables the whole function returns exactly the read-only flag. -/
theorem assignTypedDictToTypedDict_variance {Ty : Type} (sub : Ty → Ty → Bool) (objType : Ty)
    (name : String) (destEntry srcEntry : TypedDictEntry Ty)
    (hsub : sub srcEntry.valueType destEntry.valueType = true)
    (hstrict : sub destEntry.valueType srcEntry.valueType = false) :
    (destEntry.isReadOnly = false →
        (tdPresentFieldCheck sub false name destEntry srcEntry).1 = false) ∧
    (destEntry.isReadOnly = true →
        (tdPresentFieldCheck sub false name destEntry srcEntry).1 = true) ∧
    ((assignTypedDictToTypedDict sub objType false [(name, destEntry)] [(name, srcEntry)]).1
        = destEntry.isReadOnly) := by
  have hwrit : destEntry.isReadOnly = false →
      (tdPresentFieldCheck sub false name destEntry srcEntry).1 = false := by
    intro hro
    simp [tdPresentFieldCheck, assignTypeModel, hro, hsub, hstrict]
  have hro : destEntry.isReadOnly = true →
      (tdPresentFieldCheck sub false name destEntry srcEntry).1 = true := by
    intro hro
    simp [tdPresentFieldCheck, assignTypeModel, hro, hsub, hstrict]
  refine ⟨hwrit, hro, ?_⟩
  have hfull : (assignTypedDictToTypedDict sub objType false [(name, destEntry)]
      [(name, srcEntry)]).1 = (tdPresentFieldCheck sub false name destEntry srcEntry).1 := by
    simp [assignTypedDictToTypedDict, List.lookup]
  rw [hfull]
  cases h : destEntry.isReadOnly with
  | false => rw [hwrit h]
  | true => rw [hro h]

/-- Claim C2 witness: the variance theorem evaluated over `Nat` with
assignability `Nat.ble` and the strict subtype pair 1 ⊑ 2 — the writable
destination field rejects it and the read-only destination field accepts
it. -/
theorem assignTypedDictToTypedDict_variance_witness :
    ((tdPresentFieldCheck Nat.ble false "f"
        ({ valueType := 2, isRequired := true, isReadOnly := false, isProvided := false })
        ({ valueType := 1, isRequired := true, isReadOnly := false, isProvided := false })).1
      = false) ∧
    ((tdPresentFieldCheck Nat.ble false "f"
        ({ valueType := 2, isRequired := true, isReadOnly := true, isProvided := false })
        ({ valueType := 1, isRequired := true, isReadOnly := false, isProvided := false })).1
      = true) :=
  ⟨(assignTypedDictToTypedDict_variance Nat.ble 0 "f" ⟨2, true, false, false⟩
      ⟨1, true, false, false⟩ (by decide) (by decide)).1 rfl,
   (assignTypedDictToTypedDict_variance Nat.ble 0 "f" ⟨2, true, true, false⟩
      ⟨1, true, false, false⟩ (by decide) (by decide)).2.1 rfl⟩

/-! ## Claim C3 -/

/-- Claim C3: in `assignTypedDictToTypedDict`, a destination field absent from
the source entries is accepted only when it is both not required and
read-only, in which case the absent field is implicitly treated as the top
object type, so the field passes exactly when its value type accepts the
object type; in every other case a field-missing addendum is reported and the
result is false.  On a singleton destination table the whole function returns
exactly the missing-field check. -/
theorem assignTypedDictToTypedDict_missing_field {Ty : Type} (sub : Ty → Ty → Bool)
    (objType : Ty) (flags : Bool) (name : String) (destEntry : TypedDictEntry Ty)
    (srcEntries : List (String × TypedDictEntry Ty))
    (hmiss : srcEntries.lookup name = none) :
    (destEntry.isRequired = true ∨ destEntry.isReadOnly = false →
        tdMissingFieldCheck sub objType flags name destEntry
          = (false, [TDDiag.typedDictFieldMissing name])) ∧
    (destEntry.isRequired = false → destEntry.isReadOnly = true →
        (tdMissingFieldCheck sub objType flags name destEntry).1
            = assignTypeModel sub destEntry.valueType objType flags ∧
          TDDiag.typedDictFieldMissing name ∉
            (tdMissingFieldCheck sub objType flags name destEntry).2) ∧
    (assignTypedDictToTypedDict sub objType flags [(name, destEntry)] srcEntries
        = tdMissingFieldCheck sub objType flags name destEntry) := by
  refine ⟨?_, ?_, ?_⟩
  · intro h
    have hcond : (destEntry.isRequired || !destEntry.isReadOnly) = true := by
      rcases h with h | h <;> simp [h]
    simp [tdMissingFieldCheck, hcond]
  · intro h1 h2
    have hcond : (destEntry.isRequired || !destEntry.isReadOnly) = false := by
      simp [h1, h2]
    cases hobj : assignTypeModel sub destEntry.valueType objType flags with
    | true => simp [tdMissingFieldCheck, hcond, hobj]
    | false => simp [tdMissingFieldCheck, hcond, hobj]
  · simp [assignTypedDictToTypedDict, hmiss]

/-- Claim C3 witness: the missing-field theorem evaluated at concrete entries
— a required missing field fails with the field-missing addendum, and an
optional read-only missing field passes exactly the object-type check
(satisfied here). -/
theorem assignTypedDictToTypedDict_missing_field_witness :
    (tdMissingFieldCheck Nat.ble 5 false "f"
        ({ valueType := 2, isRequired := true, isReadOnly := false, isProvided := false })
      = (false, [TDDiag.typedDictFieldMissing "f"])) ∧
    ((tdMissingFieldCheck Nat.ble 5 false "f"
        ({ valueType := 7, isRequired := false, isReadOnly := true, isProvided := false })).1
      = assignTypeModel Nat.ble 7 5 false) :=
  ⟨(assignTypedDictToTypedDict_missing_field Nat.ble 5 false "f" ⟨2, true, false, false⟩ []
      rfl).1 (Or.inl rfl),
   ((assignTypedDictToTypedDict_missing_field Nat.ble 5 false "f" ⟨7, false, true, false⟩ []
      rfl).2.1 rfl rfl).1⟩

/-! ## Claim C7 -/

theorem walk_limit (g : Nat → TWTypeNode) (rc : Nat) (fl : WalkFlags) (i : Nat)
    (h : maxTypeRecursionCount < rc) :
    walk g rc fl i = { fl with hitRecursionLimit := true } := by
  rw [walk]
  simp [h]

theorem walk_canceled (g : Nat → TWTypeNode) (rc : Nat) (fl : WalkFlags) (i : Nat)
    (hc : fl.isWalkCanceled = true) (hrc : rc ≤ maxTypeRecursionCount) :
    walk g rc fl i = fl := by
  rw [walk]
  have h : ¬ maxTypeRecursionCount < rc := by omega
  simp [h, hc]

theorem walkList_stop (g : Nat → TWTypeNode) (rc : Nat) (fl : WalkFlags) (i : Nat)
    (rest : List Nat) (h : (walk g rc fl i).isWalkCanceled = true) :
    walkList g rc fl (i :: rest) = walk g rc fl i := by
  rw [walkList]
  simp [h]

theorem walkList_continue (g : Nat → TWTypeNode) (rc : Nat) (fl : WalkFlags) (i : Nat)
    (rest : List Nat) (h : (walk g rc fl i).isWalkCanceled = false) :
    walkList g rc fl (i :: rest) = walkList g rc (walk g rc fl i) rest := by
  rw [walkList]
  simp [h]

/-- Self-referential type graph: every node is a union containing itself. -/
def twLoopGraph : Nat → TWTypeNode := fun _ =>
  { typeAliasArgs := none, form := TWForm.union [0] }

theorem twLoop_walk : ∀ (n rc : Nat), rc + n = maxTypeRecursionCount + 1 →
    walk twLoopGraph rc { isWalkCanceled := false, hitRecursionLimit := false } 0
      = { isWalkCanceled := false, hitRecursionLimit := true } := by
  intro n
  induction n with
  | zero =>
    intro rc h
    exact walk_limit _ _ _ _ (by omega)
  | succ n ih =>
    intro rc h
    rw [walk]
    have hn : ¬ maxTypeRecursionCount < rc := by omega
    simp only [hn, dite_false, dif_neg]
    simp only [twLoopGraph]
    rw [walkList]
    rw [ih (rc + 1) (by omega)]
    rw [walkList]
    simp

/-- Claim C7: the walker terminates on every type graph including cyclic ones
(the embedded `walk` is a total function; the final conjunct evaluates it on a
self-referential union); when the recursion depth exceeds the fixed maximum it
sets the recursion-limit flag and returns without visiting children, leaving
the rest of the walk to continue (fourth conjunct); and once the cancellation
flag is set, the remaining sibling children are skipped and any subsequent
walk call returns immediately. -/
theorem typeWalker_walk_bounds :
    (∀ (g : Nat → TWTypeNode) (rc : Nat) (fl : WalkFlags) (i : Nat),
        maxTypeRecursionCount < rc → walk g rc fl i = { fl with hitRecursionLimit := true }) ∧
    (∀ (g : Nat → TWTypeNode) (rc : Nat) (fl : WalkFlags) (i : Nat),
        fl.isWalkCanceled = true → rc ≤ maxTypeRecursionCount → walk g rc fl i = fl) ∧
    (∀ (g : Nat → TWTypeNode) (rc : Nat) (fl : WalkFlags) (i : Nat) (rest : List Nat),
        (walk g rc fl i).isWalkCanceled = true →
        walkList g rc fl (i :: rest) = walk g rc fl i) ∧
    (∀ (g : Nat → TWTypeNode) (rc : Nat) (fl : WalkFlags) (i : Nat) (rest : List Nat),
        (walk g rc fl i).isWalkCanceled = false →
        walkList g rc fl (i :: rest) = walkList g rc (walk g rc fl i) rest) ∧
    (walk twLoopGraph 0 { isWalkCanceled := false, hitRecursionLimit := false } 0
      = { isWalkCanceled := false, hitRecursionLimit := true }) :=
  ⟨walk_limit, walk_canceled, walkList_stop, walkList_continue,
   twLoop_walk (maxTypeRecursionCount + 1) 0 rfl⟩

/-- Claim C7 witness: the bounds theorem evaluated at concrete inputs — depth
21 over the self-loop graph sets the recursion-limit flag, a canceled walk at
depth 0 returns its input, a canceled child stops the sibling loop, and a
non-canceled child lets the sibling loop continue. -/
theorem typeWalker_walk_bounds_witness :
    (walk twLoopGraph 21 { isWalkCanceled := false, hitRecursionLimit := false } 0
        = { isWalkCanceled := false, hitRecursionLimit := true }) ∧
    (walk twLoopGraph 0 { isWalkCanceled := true, hitRecursionLimit := false } 0
        = { isWalkCanceled := true, hitRecursionLimit := false }) ∧
    (walkList twLoopGraph 0 { isWalkCanceled := true, hitRecursionLimit := false } [0, 5]
        = walk twLoopGraph 0 { isWalkCanceled := true, hitRecursionLimit := false } 0) ∧
    (walkList twLoopGraph 21 { isWalkCanceled := false, hitRecursionLimit := false } [0, 5]
        = walkList twLoopGraph 21
            (walk twLoopGraph 21 { isWalkCanceled := false, hitRecursionLimit := false } 0)
            [5]) :=
  ⟨typeWalker_walk_bounds.1 twLoopGraph 21 _ 0 (by norm_num [maxTypeRecursionCount]),
   typeWalker_walk_bounds.2.1 twLoopGraph 0 _ 0 rfl (by norm_num [maxTypeRecursionCount]),
   typeWalker_walk_bounds.2.2.1 twLoopGraph 0 _ 0 [5]
     (by rw [walk_canceled twLoopGraph 0 _ 0 rfl (by norm_num [maxTypeRecursionCount])]),
   typeWalker_walk_bounds.2.2.2.1 twLoopGraph 21 _ 0 [5]
     (by rw [walk_limit twLoopGraph 21 _ 0 (by norm_num [maxTypeRecursionCount])])⟩

/-! ## Claim C10 -/

/-- Claim C10: `DiagnosticSink.addDiagnostic` deduplicates by position and
message — after adding a diagnostic, a second one with equal range and message
leaves the list unchanged, while one differing in range or message (and not
already recorded in the sink) is appended — and `fetchAndClear` resets the
list and the dedup map, so any diagnostic can be added again afterwards.  The
external `hashString` is assumed collision-free. -/
theorem addDiagnostic_dedup_spec (hashString : String → String)
    (hinj : Function.Injective hashString) (sink : DiagnosticSink) (d1 d2 : Diagnostic) :
    (d1.range = d2.range → d1.message = d2.message →
        (addDiagnostic hashString (addDiagnostic hashString sink d1) d2).diagnosticList
          = (addDiagnostic hashString sink d1).diagnosticList) ∧
    (¬(d1.range = d2.range ∧ d1.message = d2.message) →
        sink.diagnosticMap.lookup (dedupKey hashString d2) = none →
        (addDiagnostic hashString (addDiagnostic hashString sink d1) d2).diagnosticList
          = (addDiagnostic hashString sink d1).diagnosticList ++ [d2]) ∧
    (∀ d : Diagnostic,
        (addDiagnostic hashString (fetchAndClear sink).2 d).diagnosticList = [d]) := by
  refine ⟨?_, ?_, ?_⟩
  · intro hr hm
    have hkey : dedupKey hashString d2 = dedupKey hashString d1 := by
      unfold dedupKey
      rw [hr, hm]
    rcases hlk : sink.diagnosticMap.lookup (dedupKey hashString d1) with _ | dprev
    · have h1 : addDiagnostic hashString sink d1 =
          { diagnosticList := sink.diagnosticList ++ [d1],
            diagnosticMap := setEntry sink.diagnosticMap (dedupKey hashString d1) d1 } := by
        unfold addDiagnostic
        simp only [hlk]
      rw [h1]
      unfold addDiagnostic
      simp only [hkey, lookup_setEntry_self]
    · have h1 : addDiagnostic hashString sink d1 = sink := by
        unfold addDiagnostic
        simp only [hlk]
      rw [h1]
      unfold addDiagnostic
      simp only [hkey, hlk]
  · intro hne hd2
    have hkey : dedupKey hashString d2 ≠ dedupKey hashString d1 := by
      intro he
      exact hne ⟨(dedupKey_inj hinj he).1.symm, (dedupKey_inj hinj he).2.symm⟩
    rcases hlk : sink.diagnosticMap.lookup (dedupKey hashString d1) with _ | dprev
    · have h1 : addDiagnostic hashString sink d1 =
          { diagnosticList := sink.diagnosticList ++ [d1],
            diagnosticMap := setEntry sink.diagnosticMap (dedupKey hashString d1) d1 } := by
        unfold addDiagnostic
        simp only [hlk]
      rw [h1]
      unfold addDiagnostic
      simp only [lookup_setEntry_other _ _ _ _ hkey, hd2]
    · have h1 : addDiagnostic hashString sink d1 = sink := by
        unfold addDiagnostic
        simp only [hlk]
      rw [h1]
      unfold addDiagnostic
      simp only [hd2]
  · intro d
    unfold addDiagnostic fetchAndClear
    simp [List.lookup]

def c10Diag1 : Diagnostic :=
  { category := DiagnosticCategoryModel.error, message := "bad",
    range := { start := { line := 1, character := 2 }, stop := { line := 1, character := 9 } } }

def c10Diag2 : Diagnostic :=
  { category := DiagnosticCategoryModel.error, message := "worse",
    range := { start := { line := 1, character := 2 }, stop := { line := 1, character := 9 } } }

/-- Claim C10 witness: the dedup theorem evaluated on an empty sink with the
identity hash — re-adding an equal diagnostic leaves the list unchanged, a
diagnostic with a different message is appended, and after `fetchAndClear` the
first diagnostic can be added again. -/
theorem addDiagnostic_dedup_spec_witness :
    ((addDiagnostic id (addDiagnostic id ⟨[], []⟩ c10Diag1) c10Diag1).diagnosticList
        = (addDiagnostic id ⟨[], []⟩ c10Diag1).diagnosticList) ∧
    ((addDiagnostic id (addDiagnostic id ⟨[], []⟩ c10Diag1) c10Diag2).diagnosticList
        = (addDiagnostic id ⟨[], []⟩ c10Diag1).diagnosticList ++ [c10Diag2]) ∧
    ((addDiagnostic id (fetchAndClear ⟨[c10Diag1], [("k", c10Diag1)]⟩).2
        c10Diag1).diagnosticList = [c10Diag1]) :=
  ⟨(addDiagnostic_dedup_spec id (fun _ _ h => h) ⟨[], []⟩ c10Diag1 c10Diag1).1 rfl rfl,
   (addDiagnostic_dedup_spec id (fun _ _ h => h) ⟨[], []⟩ c10Diag1 c10Diag2).2.1
     (by intro h; exact absurd h.2 (by decide)) rfl,
   (addDiagnostic_dedup_spec id (fun _ _ h => h) ⟨[c10Diag1], [("k", c10Diag1)]⟩ c10Diag1
     c10Diag1).2.2 c10Diag1⟩

/-! ## Claim C1 -/

/-- Success condition that `assignToTypedDict` enforces for one key/value
argument: the key is a string literal naming a declared field and the value
type is assignable to the declared value type. -/
def assignTDArgOk {Ty : Type} (sub : Ty → Ty → Bool)
    (entries : List (String × TypedDictEntry Ty)) (arg : TDKeyType × TDValueArg Ty) : Bool :=
  match arg.1 with
  | TDKeyType.nonLiteral => false
  | TDKeyType.strLiteral s =>
    match entries.lookup s with
    | none => false
    | some e => sub arg.2.type e.valueType

/-- Diagnostic addendum message that one key/value argument contributes in
`assignToTypedDict` (none for a passing key, and also none for a non-literal
key). -/
def assignTDArgDiag {Ty : Type} (sub : Ty → Ty → Bool)
    (entries : List (String × TypedDictEntry Ty)) (arg : TDKeyType × TDValueArg Ty) :
    Option TDDiag :=
  match arg.1 with
  | TDKeyType.nonLiteral => none
  | TDKeyType.strLiteral s =>
    match entries.lookup s with
    | none => some (TDDiag.typedDictFieldUndefined s)
    | some e =>
      if sub arg.2.type e.valueType then none
      else some (TDDiag.typedDictFieldTypeMismatch s)

/-- Predicate: the argument is a string literal for the declared field `t`. -/
def argHitsName {Ty : Type} (entries : List (String × TypedDictEntry Ty))
    (arg : TDKeyType × TDValueArg Ty) (t : String) : Bool :=
  match arg.1 with
  | TDKeyType.nonLiteral => false
  | TDKeyType.strLiteral s => decide (s = t) && (entries.lookup t).isSome

/-- Narrowed-entry update that one key/value argument performs. -/
def assignTDNarrowStep {Ty : Type} (entries : List (String × TypedDictEntry Ty))
    (nr : List (String × TypedDictEntry Ty)) (arg : TDKeyType × TDValueArg Ty) :
    List (String × TypedDictEntry Ty) :=
  match arg.1 with
  | TDKeyType.nonLiteral => nr
  | TDKeyType.strLiteral s =>
    match entries.lookup s with
    | none => nr
    | some e =>
      if !e.isRequired then
        setEntry nr s { valueType := arg.2.type, isRequired := false,
                        isReadOnly := arg.2.isReadOnly, isProvided := true }
      else nr

/-- Symbol map with the provided flag switched on for the keys satisfying a
predicate. -/
def markMap {Ty : Type} (entries : List (String × TypedDictEntry Ty)) (P : String → Bool) :
    List (String × TypedDictEntry Ty) :=
  entries.map (fun p => (p.1, { p.2 with isProvided := p.2.isProvided || P p.1 }))

theorem markMap_congr {Ty : Type} {entries : List (String × TypedDictEntry Ty)}
    {P Q : String → Bool} (h : ∀ p ∈ entries, P p.1 = Q p.1) :
    markMap entries P = markMap entries Q := by
  induction entries with
  | nil => rfl
  | cons p rest ih =>
    simp only [markMap, List.map_cons, List.cons.injEq]
    constructor
    · rw [h p (List.mem_cons_self p rest)]
    · exact ih (fun q hq => h q (List.mem_cons_of_mem p hq))

theorem markMap_false {Ty : Type} (entries : List (String × TypedDictEntry Ty)) :
    markMap entries (fun _ => false) = entries := by
  induction entries with
  | nil => rfl
  | cons p rest ih =>
    simp only [markMap, List.map_cons] at ih ⊢
    rw [ih]
    simp

theorem lookup_markMap {Ty : Type} (entries : List (String × TypedDictEntry Ty))
    (P : String → Bool) (s : String) :
    (markMap entries P).lookup s
      = (entries.lookup s).map (fun e => { e with isProvided := e.isProvided || P s }) := by
  induction entries with
  | nil => simp [markMap, List.lookup]
  | cons p rest ih =>
    simp only [markMap, List.map_cons, List.lookup]
    by_cases h : s = p.1
    · have hb : (s == p.1) = true := by simp [h]
      simp [hb, h]
    · have hb : (s == p.1) = false := by simp [h]
      simp only [hb]
      exact ih

theorem setEntry_markMap {Ty : Type} (entries : List (String × TypedDictEntry Ty))
    (hnodup : (entries.map Prod.fst).Nodup) (P : String → Bool) (s : String)
    (e : TypedDictEntry Ty) (hlk : entries.lookup s = some e) :
    setEntry (markMap entries P) s { e with isProvided := true }
      = markMap entries (fun t => P t || decide (t = s)) := by
  induction entries with
  | nil => cases hlk
  | cons p rest ih =>
    simp only [List.map_cons, List.nodup_cons] at hnodup
    simp only [markMap, List.map_cons, setEntry]
    by_cases h : s = p.1
    · have hb : (s == p.1) = true := by simp [h]
      simp only [List.lookup, hb] at hlk
      injection hlk with hlk
      subst hlk
      rw [if_pos h.symm]
      simp only [List.cons.injEq]
      refine ⟨?_, ?_⟩
      · subst h
        simp
      · have hcg : markMap rest P = markMap rest (fun t => P t || decide (t = s)) := by
          apply markMap_congr
          intro q hq
          have hne : q.1 ≠ s := by
            intro he
            apply hnodup.1
            have hm : q.1 ∈ List.map Prod.fst rest := List.mem_map_of_mem Prod.fst hq
            rw [he, h] at hm
            exact hm
          simp [hne]
        simpa [markMap] using hcg
    · have hb : (s == p.1) = false := by simp [h]
      simp only [List.lookup, hb] at hlk
      have hps : ¬p.1 = s := fun he => h he.symm
      rw [if_neg hps]
      simp only [List.cons.injEq]
      refine ⟨?_, ?_⟩
      · have hd : decide (p.1 = s) = false := by simp [hps]
        simp [hd]
      · simpa [markMap] using ih hnodup.2 hlk

theorem assignTDProcessKey_spec {Ty : Type} (sub : Ty → Ty → Bool)
    (entries : List (String × TypedDictEntry Ty)) (hnodup : (entries.map Prod.fst).Nodup)
    (P : String → Bool) (isM : Bool) (nr : List (String × TypedDictEntry Ty))
    (dg : List TDDiag) (arg : TDKeyType × TDValueArg Ty) :
    assignTDProcessKey sub (AssignTDState.mk isM (markMap entries P) nr dg) arg
      = { isMatch := isM && assignTDArgOk sub entries arg,
          symbolMap := markMap entries (fun t => P t || argHitsName entries arg t),
          narrowedEntries := assignTDNarrowStep entries nr arg,
          diags := dg ++ (assignTDArgDiag sub entries arg).toList } := by
  obtain ⟨k, v⟩ := arg
  cases k with
  | nonLiteral =>
    have hcg : markMap entries P
        = markMap entries (fun t => P t || argHitsName entries (TDKeyType.nonLiteral, v) t) := by
      apply markMap_congr
      intro p _
      simp [argHitsName]
    simp only [assignTDProcessKey, assignTDArgOk, assignTDArgDiag, assignTDNarrowStep,
      Option.toList, Bool.and_false, List.append_nil]
    rw [← hcg]
  | strLiteral s =>
    rcases hlk : entries.lookup s with _ | e
    · have hmk : (markMap entries P).lookup s = none := by
        rw [lookup_markMap, hlk]; rfl
      have hcg : markMap entries P
          = markMap entries (fun t => P t || argHitsName entries (TDKeyType.strLiteral s, v) t) := by
        apply markMap_congr
        intro p hp
        have hne : decide (s = p.1) = false := by
          by_cases he : s = p.1
          · exfalso
            have := lookup_isSome_of_mem hp
            rw [← he, hlk] at this
            cases this
          · simp [he]
        simp [argHitsName, hne]
      simp only [assignTDProcessKey, hmk, assignTDArgOk, assignTDArgDiag, assignTDNarrowStep,
        hlk, Option.toList, Bool.and_false]
      rw [← hcg]
    · have hmk : (markMap entries P).lookup s
          = some { e with isProvided := e.isProvided || P s } := by
        rw [lookup_markMap, hlk]; rfl
      have hset : setEntry (markMap entries P) s ({ e with isProvided := true })
          = markMap entries (fun t => P t || decide (t = s)) :=
        setEntry_markMap entries hnodup P s e hlk
      have hcg : markMap entries (fun t => P t || decide (t = s))
          = markMap entries (fun t => P t || argHitsName entries (TDKeyType.strLiteral s, v) t) := by
        apply markMap_congr
        intro p hp
        by_cases he : p.1 = s
        · have h1 : decide (p.1 = s) = true := by simp [he]
          have h2 : decide (s = p.1) = true := by simp [he]
          have h3 : (entries.lookup p.1).isSome = true := lookup_isSome_of_mem hp
          rw [he] at h3
          simp [argHitsName, h1, h2, he, h3]
        · have h1 : decide (p.1 = s) = false := decide_eq_false he
          have h2 : decide (s = p.1) = false := decide_eq_false fun x => he x.symm
          simp [argHitsName, h1, h2]
      simp only [assignTDProcessKey, hmk, assignTDArgOk, assignTDArgDiag, assignTDNarrowStep,
        hlk, Option.toList]
      cases hsub : sub v.type e.valueType <;> cases hreq : e.isRequired <;>
        rw [hreq] at hset <;>
        simp only [hsub, hreq, Bool.and_true, Bool.and_false, Bool.not_true, Bool.not_false,
          Bool.false_eq_true, Bool.true_eq_false, if_true, if_false, ite_true, ite_false,
          Option.toList, List.append_nil, Bool.true_and, Bool.false_and] <;>
        rw [← hcg, ← hset]


theorem assignTDProcessAll_spec {Ty : Type} (sub : Ty → Ty → Bool)
    (entries : List (String × TypedDictEntry Ty)) (hnodup : (entries.map Prod.fst).Nodup) :
    ∀ (args : List (TDKeyType × TDValueArg Ty)) (P : String → Bool) (isM : Bool)
      (nr : List (String × TypedDictEntry Ty)) (dg : List TDDiag),
    assignTDProcessAll sub (AssignTDState.mk isM (markMap entries P) nr dg) args
      = { isMatch := isM && args.all (assignTDArgOk sub entries),
          symbolMap := markMap entries
            (fun t => P t || args.any (fun a => argHitsName entries a t)),
          narrowedEntries := args.foldl (assignTDNarrowStep entries) nr,
          diags := dg ++ args.filterMap (assignTDArgDiag sub entries) } := by
  intro args
  induction args with
  | nil =>
    intro P isM nr dg
    have hcg : markMap entries P = markMap entries (fun t => P t || false) := by
      apply markMap_congr
      intro p _
      simp
    simp only [assignTDProcessAll, List.foldl_nil, List.all_nil, Bool.and_true,
      List.filterMap_nil, List.append_nil, List.any_nil]
    rw [← hcg]
  | cons a args ih =>
    intro P isM nr dg
    have h1 : assignTDProcessAll sub (AssignTDState.mk isM (markMap entries P) nr dg)
        (a :: args) = assignTDProcessAll sub
          (assignTDProcessKey sub (AssignTDState.mk isM (markMap entries P) nr dg) a) args :=
      rfl
    rw [h1, assignTDProcessKey_spec sub entries hnodup]
    have h2 := ih (fun t => P t || argHitsName entries a t)
      (isM && assignTDArgOk sub entries a) (assignTDNarrowStep entries nr a)
      (dg ++ (assignTDArgDiag sub entries a).toList)
    rw [h2]
    have hcg : markMap entries
          (fun t => (P t || argHitsName entries a t)
            || args.any (fun b => argHitsName entries b t))
        = markMap entries
          (fun t => P t || (a :: args).any (fun b => argHitsName entries b t)) := by
      apply markMap_congr
      intro p _
      rw [List.any_cons, Bool.or_assoc]
    rw [hcg]
    have hdg : (dg ++ (assignTDArgDiag sub entries a).toList)
          ++ args.filterMap (assignTDArgDiag sub entries)
        = dg ++ (a :: args).filterMap (assignTDArgDiag sub entries) := by
      rw [List.append_assoc, List.filterMap_cons]
      rcases assignTDArgDiag sub entries a with _ | dmsg <;> simp [Option.toList]
    rw [hdg]
    rw [Bool.and_assoc, ← List.all_cons]
    rfl

theorem assignTDArgOk_iff {Ty : Type} (sub : Ty → Ty → Bool)
    (entries : List (String × TypedDictEntry Ty)) (arg : TDKeyType × TDValueArg Ty) :
    assignTDArgOk sub entries arg = true ↔
      ∃ s e, arg.1 = TDKeyType.strLiteral s ∧ entries.lookup s = some e ∧
        sub arg.2.type e.valueType = true := by
  obtain ⟨k, v⟩ := arg
  cases k with
  | nonLiteral => simp [assignTDArgOk]
  | strLiteral s =>
    rcases hlk : entries.lookup s with _ | e
    · simp only [assignTDArgOk, hlk]
      constructor
      · intro h; cases h
      · rintro ⟨s2, e2, hs2, hlk2, _⟩
        injection hs2 with hs2
        subst hs2
        rw [hlk] at hlk2
        cases hlk2
    · simp only [assignTDArgOk, hlk]
      constructor
      · intro h; exact ⟨s, e, rfl, hlk, h⟩
      · rintro ⟨s2, e2, hs2, hlk2, hs⟩
        injection hs2 with hs2
        subst hs2
        rw [hlk] at hlk2
        injection hlk2 with hlk2
        subst hlk2
        exact hs

theorem args_any_hits_iff {Ty : Type} (entries : List (String × TypedDictEntry Ty))
    (args : List (TDKeyType × TDValueArg Ty)) (p : String × TypedDictEntry Ty)
    (hp : p ∈ entries) :
    (args.any (fun a => argHitsName entries a p.1) = true) ↔
      ∃ a ∈ args, a.1 = TDKeyType.strLiteral p.1 := by
  rw [List.any_eq_true]
  constructor
  · rintro ⟨a, ha, hhit⟩
    obtain ⟨k, v⟩ := a
    cases k with
    | nonLiteral => cases hhit
    | strLiteral s =>
      simp only [argHitsName, Bool.and_eq_true, decide_eq_true_eq] at hhit
      exact ⟨(TDKeyType.strLiteral s, v), ha, by rw [hhit.1]⟩
  · rintro ⟨a, ha, hk⟩
    refine ⟨a, ha, ?_⟩
    obtain ⟨k, v⟩ := a
    simp only at hk
    subst hk
    simp [argHitsName, lookup_isSome_of_mem hp]

theorem assignToTypedDict_eval {Ty : Type} (sub : Ty → Ty → Bool)
    (entries : List (String × TypedDictEntry Ty)) (args : List (TDKeyType × TDValueArg Ty))
    (hnodup : (entries.map Prod.fst).Nodup) :
    assignToTypedDict sub entries args =
      (if !(args.all (assignTDArgOk sub entries)) then
         (none, args.filterMap (assignTDArgDiag sub entries))
       else
         let missing := (markMap entries
             (fun t => args.any (fun a => argHitsName entries a t))).filter
             (fun p => p.2.isRequired && !p.2.isProvided)
         let diags := args.filterMap (assignTDArgDiag sub entries)
             ++ missing.map (fun p => TDDiag.typedDictFieldRequired p.1)
         if missing.isEmpty then (some (args.foldl (assignTDNarrowStep entries) []), diags)
         else (none, diags)) := by
  have hst : assignTDProcessAll sub (AssignTDState.mk true entries [] []) args
      = AssignTDState.mk (args.all (assignTDArgOk sub entries))
          (markMap entries (fun t => args.any (fun a => argHitsName entries a t)))
          (args.foldl (assignTDNarrowStep entries) [])
          (args.filterMap (assignTDArgDiag sub entries)) := by
    conv_lhs => rw [show entries = markMap entries (fun _ => false) from
      (markMap_false entries).symm]
    rw [assignTDProcessAll_spec sub entries hnodup]
    simp only [Bool.true_and, List.nil_append, AssignTDState.mk.injEq, true_and, and_true]
    apply markMap_congr
    intro p _
    simp
  simp only [assignToTypedDict, hst]

/-- Claim C1 (amended): `assignToTypedDict` returns a (possibly narrowed)
class exactly when every key is a string-literal value naming a declared
field, every provided value type is assignable to the declared field type,
and every required field is among the provided keys; checking continues past
per-key failures, and every failing key that is an unknown key or has an
incompatible value contributes its own diagnostic addendum — but a
non-literal key only makes the construction non-matching, without
contributing an addendum (the correction to the original claim). -/
theorem assignToTypedDict_characterization {Ty : Type} (sub : Ty → Ty → Bool)
    (entries : List (String × TypedDictEntry Ty)) (args : List (TDKeyType × TDValueArg Ty))
    (hnodup : (entries.map Prod.fst).Nodup)
    (hprov : ∀ p ∈ entries, p.2.isProvided = false) :
    ((assignToTypedDict sub entries args).1.isSome = true ↔
      ((∀ a ∈ args, ∃ s e, a.1 = TDKeyType.strLiteral s ∧ entries.lookup s = some e ∧
          sub a.2.type e.valueType = true) ∧
       (∀ p ∈ entries, p.2.isRequired = true →
          ∃ a ∈ args, a.1 = TDKeyType.strLiteral p.1))) ∧
    (∀ a ∈ args, ∀ dm, assignTDArgDiag sub entries a = some dm →
        dm ∈ (assignToTypedDict sub entries args).2) ∧
    ((∃ a ∈ args, a.1 = TDKeyType.nonLiteral) →
        (assignToTypedDict sub entries args).1 = none) := by
  have hA : args.all (assignTDArgOk sub entries) = true ↔
      (∀ a ∈ args, ∃ s e, a.1 = TDKeyType.strLiteral s ∧ entries.lookup s = some e ∧
        sub a.2.type e.valueType = true) := by
    rw [List.all_eq_true]
    constructor
    · intro h a ha
      exact (assignTDArgOk_iff sub entries a).mp (h a ha)
    · intro h a ha
      exact (assignTDArgOk_iff sub entries a).mpr (h a ha)
  have hmissnil : ((markMap entries
        (fun t => args.any (fun a => argHitsName entries a t))).filter
        (fun p => p.2.isRequired && !p.2.isProvided) = []) ↔
      (∀ p ∈ entries, p.2.isRequired = true →
        ∃ a ∈ args, a.1 = TDKeyType.strLiteral p.1) := by
    rw [List.filter_eq_nil_iff]
    constructor
    · intro h p hp hreq
      have hq := List.mem_map_of_mem
        (fun r => (r.1, TypedDictEntry.mk r.2.valueType r.2.isRequired r.2.isReadOnly
          (r.2.isProvided || args.any (fun a => argHitsName entries a r.1)))) hp
      have hcond := h _ hq
      simp only [hreq, hprov p hp, Bool.false_or, Bool.true_and, Bool.not_eq_true,
        Bool.not_eq_false] at hcond
      exact (args_any_hits_iff entries args p hp).mp (by simpa using hcond)
    · intro h q hq
      rcases List.mem_map.mp hq with ⟨p, hp, rfl⟩
      simp only [Bool.and_eq_true, Bool.not_eq_true]
      intro hcontra
      have hreq : p.2.isRequired = true := hcontra.1
      have hPf : (p.2.isProvided || args.any (fun a => argHitsName entries a p.1)) = false := by
        simpa using hcontra.2
      rw [hprov p hp, Bool.false_or] at hPf
      have := (args_any_hits_iff entries args p hp).mpr (h p hp hreq)
      rw [this] at hPf
      cases hPf
  rw [assignToTypedDict_eval sub entries args hnodup]
  cases hall : args.all (assignTDArgOk sub entries) with
  | false =>
    simp only [hall, Bool.not_false, if_true]
    refine ⟨?_, ?_, ?_⟩
    · apply iff_of_false
      · simp
      · rintro ⟨h1, _⟩
        rw [← hA] at h1
        rw [hall] at h1
        cases h1
    · intro a ha dm hdm
      exact List.mem_filterMap.mpr ⟨a, ha, hdm⟩
    · intro _
      trivial
  | true =>
    simp only [hall, Bool.not_true, if_false]
    have hnonlit : (∃ a ∈ args, a.1 = TDKeyType.nonLiteral) → False := by
      rintro ⟨a, ha, hk⟩
      have : args.all (assignTDArgOk sub entries) = false := by
        rw [List.all_eq_false]
        refine ⟨a, ha, ?_⟩
        obtain ⟨k, v⟩ := a
        simp only at hk
        subst hk
        simp [assignTDArgOk]
      rw [hall] at this
      cases this
    cases hempty : ((markMap entries
        (fun t => args.any (fun a => argHitsName entries a t))).filter
        (fun p => p.2.isRequired && !p.2.isProvided)).isEmpty with
    | true =>
      rw [if_pos rfl]
      refine ⟨?_, ?_, ?_⟩
      · apply iff_of_true
        · simp
        · exact ⟨hA.mp hall, hmissnil.mp (List.isEmpty_iff.mp hempty)⟩
      · intro a ha dm hdm
        exact List.mem_append_left _ (List.mem_filterMap.mpr ⟨a, ha, hdm⟩)
      · intro h
        exact absurd h hnonlit
    | false =>
      rw [if_neg Bool.false_ne_true]
      refine ⟨?_, ?_, ?_⟩
      · apply iff_of_false
        · simp
        · rintro ⟨_, h2⟩
          have := hmissnil.mpr h2
          rw [← List.isEmpty_iff] at this
          rw [hempty] at this
          cases this
      · intro a ha dm hdm
        exact List.mem_append_left _ (List.mem_filterMap.mpr ⟨a, ha, hdm⟩)
      · intro _
        trivial

def c1Entries : List (String × TypedDictEntry Nat) :=
  [("x", { valueType := 1, isRequired := true, isReadOnly := false, isProvided := false }),
   ("label", { valueType := 2, isRequired := false, isReadOnly := false, isProvided := false })]

/-- Claim C1 counterexample: a construction whose single key is not a string
literal fails (returns undefined) yet contributes no diagnostic addendum at
all — refuting the original claim that every failing key contributes its own
addendum. -/
theorem assignToTypedDict_nonliteral_cex :
    assignToTypedDict Nat.ble c1Entries [(TDKeyType.nonLiteral, (TDValueArg.mk 1 false))]
      = (none, []) := by
  rfl

/-- Claim C1 witness: the characterization applied to a concrete TypedDict —
providing the required key `x` with an assignable value succeeds. -/
theorem assignToTypedDict_characterization_witness :
    (assignToTypedDict Nat.ble c1Entries
      [(TDKeyType.strLiteral "x", (TDValueArg.mk 1 false))]).1.isSome = true :=
  (assignToTypedDict_characterization Nat.ble c1Entries
      [(TDKeyType.strLiteral "x", (TDValueArg.mk 1 false))]
      (by decide) (by decide)).1.mpr
    ⟨by
      intro a ha
      rcases List.mem_singleton.mp ha with rfl
      exact ⟨"x", TypedDictEntry.mk 1 true false false, rfl, by decide, by decide⟩,
     by
      intro p hp hreq
      rcases List.mem_cons.mp hp with rfl | hp2
      · exact ⟨(TDKeyType.strLiteral "x", (TDValueArg.mk 1 false)),
          List.mem_singleton.mpr rfl, rfl⟩
      · rcases List.mem_singleton.mp hp2 with rfl
        cases hreq⟩

/-! ## Claim C9 -/

theorem mem_setEntry {α : Type} {m : List (String × α)} {k : String} {v : α}
    {p : String × α} (h : p ∈ setEntry m k v) : p = (k, v) ∨ p ∈ m := by
  induction m with
  | nil => simpa [setEntry] using h
  | cons q rest ih =>
    simp only [setEntry] at h
    by_cases hq : q.1 = k
    · rw [if_pos hq] at h
      rcases List.mem_cons.mp h with h | h
      · exact Or.inl h
      · exact Or.inr (List.mem_cons_of_mem q h)
    · rw [if_neg hq] at h
      rcases List.mem_cons.mp h with h | h
      · exact Or.inr (h ▸ List.mem_cons_self q rest)
      · rcases ih h with h | h
        · exact Or.inl h
        · exact Or.inr (List.mem_cons_of_mem q h)

theorem typedDictEntryForSymbol_isProvided {Ty : Type} (canOmit : Bool) (subst : Ty → Ty)
    (s : TDSymbol Ty) (entry : TypedDictEntry Ty)
    (h : typedDictEntryForSymbol canOmit subst s = some entry) : entry.isProvided = false := by
  unfold typedDictEntryForSymbol at h
  split at h
  · cases h
  · split at h
    · cases h
    · split at h
      · cases h
      · injection h with h
        subst h
        rfl

theorem tdFieldsFold_isProvided_false {Ty : Type} (canOmit : Bool) (subst : Ty → Ty)
    (fields : List (String × TDSymbol Ty)) :
    ∀ (km : List (String × TypedDictEntry Ty)), (∀ p ∈ km, p.2.isProvided = false) →
      ∀ p ∈ fields.foldl
        (fun km p =>
          match typedDictEntryForSymbol canOmit subst p.2 with
          | some entry => setEntry km p.1 entry
          | none => km)
        km, p.2.isProvided = false := by
  induction fields with
  | nil => intro km hkm; simpa using hkm
  | cons f rest ih =>
    intro km hkm
    simp only [List.foldl_cons]
    apply ih
    rcases hes : typedDictEntryForSymbol canOmit subst f.2 with _ | entry
    · simpa [hes] using hkm
    · simp only [hes]
      intro p hp
      rcases mem_setEntry hp with h | h
      · rw [h]
        exact typedDictEntryForSymbol_isProvided canOmit subst f.2 entry hes
      · exact hkm p h

mutual

theorem tdRecursive_isProvided_false {Ty : Type} (c : TDClassCore Ty) :
    ∀ (km : List (String × TypedDictEntry Ty)) (rc : Nat),
      (∀ p ∈ km, p.2.isProvided = false) →
      ∀ p ∈ getTypedDictMembersForClassRecursive c km rc, p.2.isProvided = false := by
  intro km rc hkm
  rw [getTypedDictMembersForClassRecursive.eq_def]
  by_cases hrc : rc > maxTypeRecursionCount
  · rw [if_pos hrc]
    exact hkm
  · rw [if_neg hrc]
    match c with
    | TDClassCore.mk baseClasses fields canOmitValues subst =>
      apply tdFieldsFold_isProvided_false
      exact tdBases_isProvided_false baseClasses km (rc + 1) hkm

theorem tdBases_isProvided_false {Ty : Type} (bs : List (TDClassCore Ty)) :
    ∀ (km : List (String × TypedDictEntry Ty)) (rc : Nat),
      (∀ p ∈ km, p.2.isProvided = false) →
      ∀ p ∈ tdMembersOfBases bs km rc, p.2.isProvided = false := by
  intro km rc hkm
  match bs with
  | [] => simpa [tdMembersOfBases] using hkm
  | b :: rest =>
    rw [tdMembersOfBases.eq_def]
    exact tdBases_isProvided_false rest _ rc
      (tdRecursive_isProvided_false b km rc hkm)

end

/-- Claim C9: the canonical `typedDictEntries` cache is computed at most once
— a class with a filled cache is returned untouched, an empty cache is filled
exactly once with the recursive merge, and a second resolution is a no-op —
the cached table never carries a set `isProvided` flag, the per-call result is
a fresh substituted copy of the cached entries, and running construction
checking (`assignToTypedDict`) over a class touches the class only through
that one-time cache fill, leaving every cached `isProvided` flag false. -/
theorem typedDictEntries_cache_discipline {Ty : Type} (neverType : Ty)
    (classType : TDClassFull Ty) (allowNarrowed : Bool) :
    (∀ t, classType.typedDictEntries = some t →
        (getTypedDictMembersForClass neverType classType allowNarrowed).1 = classType) ∧
    (classType.typedDictEntries = none →
        (getTypedDictMembersForClass neverType classType allowNarrowed).1
          = { classType with
                typedDictEntries :=
                  some (getTypedDictMembersForClassRecursive classType.core [] 0) }) ∧
    (getTypedDictMembersForClass neverType
        (getTypedDictMembersForClass neverType classType allowNarrowed).1 allowNarrowed
      = getTypedDictMembersForClass neverType classType allowNarrowed) ∧
    (∀ p ∈ getTypedDictMembersForClassRecursive classType.core [] 0,
        p.2.isProvided = false) ∧
    (classType.isTypedDictPartial = false →
        (getTypedDictMembersForClass neverType classType false).2
          = ((getTypedDictMembersForClass neverType classType
                false).1.typedDictEntries.getD []).map
              (fun p => (p.1, { p.2 with
                valueType := classType.specializedSubst p.2.valueType }))) ∧
    (∀ (sub : Ty → Ty → Bool) (args : List (TDKeyType × TDValueArg Ty)),
        (assignToTypedDictOnClass sub neverType classType args).1
          = (getTypedDictMembersForClass neverType classType false).1) ∧
    (∀ (sub : Ty → Ty → Bool) (args : List (TDKeyType × TDValueArg Ty))
        (t : List (String × TypedDictEntry Ty)),
        classType.typedDictEntries = none →
        (assignToTypedDictOnClass sub neverType classType args).1.typedDictEntries = some t →
        ∀ p ∈ t, p.2.isProvided = false) := by
  have hfill : ∀ (a : Bool), classType.typedDictEntries = none →
      (getTypedDictMembersForClass neverType classType a).1
        = { classType with
              typedDictEntries :=
                some (getTypedDictMembersForClassRecursive classType.core [] 0) } := by
    intro a h
    simp [getTypedDictMembersForClass, h]
  have hkeep : ∀ (a : Bool) (t), classType.typedDictEntries = some t →
      (getTypedDictMembersForClass neverType classType a).1 = classType := by
    intro a t h
    simp [getTypedDictMembersForClass, h]
  have hrec := fun p hp =>
    tdRecursive_isProvided_false classType.core [] 0 (by intro q hq; cases hq) p hp
  refine ⟨fun t h => hkeep allowNarrowed t h, hfill allowNarrowed, ?_, hrec, ?_, ?_, ?_⟩
  · rcases htde : classType.typedDictEntries with _ | t
    · rw [hfill allowNarrowed htde]
      simp [getTypedDictMembersForClass, htde]
    · rw [hkeep allowNarrowed t htde]
  · intro hpart
    rcases htde : classType.typedDictEntries with _ | t <;>
      simp [getTypedDictMembersForClass, htde, hpart]
  · intro sub args
    rfl
  · intro sub args t hnone hsome
    have h1 : (assignToTypedDictOnClass sub neverType classType args).1
        = { classType with
              typedDictEntries :=
                some (getTypedDictMembersForClassRecursive classType.core [] 0) } := by
      show (getTypedDictMembersForClass neverType classType false).1 = _
      exact hfill false hnone
    rw [h1] at hsome
    simp only at hsome
    injection hsome with hsome
    subst hsome
    exact hrec

def c9Sym : TDSymbol Nat :=
  { isIgnoredForProtocolMatch := false,
    declarations := [TDVarDecl.mk true true false false false], effectiveType := 3 }

def c9Class : TDClassFull Nat :=
  { core := TDClassCore.mk [] [("x", c9Sym)] false id,
    typedDictEntries := none, isTypedDictPartial := false,
    typedDictNarrowedEntries := none, specializedSubst := id }

/-- Claim C9 witness: the cache discipline evaluated at a concrete class — a
filled cache is kept untouched, an empty cache is filled with the recursive
merge, the per-call copy is the substituted cached table, an entry of the
computed cache has a clear provided flag, and the cache reached through
construction checking still has it clear. -/
theorem typedDictEntries_cache_discipline_witness :
    ((getTypedDictMembersForClass 0 ({ c9Class with typedDictEntries := some [] }) false).1
        = { c9Class with typedDictEntries := some [] }) ∧
    ((getTypedDictMembersForClass 0 c9Class false).1
        = { c9Class with
              typedDictEntries :=
                some (getTypedDictMembersForClassRecursive c9Class.core [] 0) }) ∧
    ((getTypedDictMembersForClass 0 c9Class false).2
        = ((getTypedDictMembersForClass 0 c9Class
              false).1.typedDictEntries.getD []).map
            (fun p => (p.1, { p.2 with
              valueType := c9Class.specializedSubst p.2.valueType }))) ∧
    ((("x", TypedDictEntry.mk 3 true false false) : String × TypedDictEntry Nat).2.isProvided
        = false) :=
  ⟨(typedDictEntries_cache_discipline 0 ({ c9Class with typedDictEntries := some [] })
      false).1 [] rfl,
   (typedDictEntries_cache_discipline 0 c9Class false).2.1 rfl,
   (typedDictEntries_cache_discipline 0 c9Class false).2.2.2.2.1 rfl,
   (typedDictEntries_cache_discipline 0 c9Class false).2.2.2.2.2.2 Nat.ble []
     (getTypedDictMembersForClassRecursive c9Class.core [] 0) rfl rfl _ (by decide)⟩

/-! ## Claim C8 -/

def c8Usage : EvaluatorUsageModel Nat :=
  { method := EvalMethodModel.get, setType := none, setExpectedTypeDiag := none }

/-- Claim C8 counterexample: with zero index arguments — a shape other than
one simple argument — `getTypeOfIndexedTypedDict` does not fall through with
`undefined`; it emits a `typeArgsMismatchOne` diagnostic itself and returns an
Unknown result, refuting the original claim at a concrete input. -/
theorem getTypeOfIndexedTypedDict_wrong_count_cex :
    getTypeOfIndexedTypedDict Nat.ble 0 0 c9Class
        { items := [], trailingComma := false } c8Usage [] false false
      = (some { resultParts := [IdxResultPart.unknown], isIncomplete := false },
         some (DiagnosticRuleModel.reportGeneralTypeIssues,
               TDIndexDiagKind.typeArgsMismatchOne)) := by
  rfl

/-- Claim C8 (amended): `getTypeOfIndexedTypedDict` proceeds only for exactly
one simple, non-keyword, non-trailing-comma index argument; an argument count
other than one is handled on this path — it reports a `typeArgsMismatchOne`
diagnostic and returns an Unknown result — while a single argument that is a
keyword argument, has a trailing comma, or is not a simple argument makes the
function return undefined with no diagnostic, falling through to generic
indexing elsewhere. -/
theorem getTypeOfIndexedTypedDict_arg_shape {Ty : Type} (sub : Ty → Ty → Bool)
    (neverType anyType : Ty) (classType : TDClassFull Ty) (node : IndexNodeModel)
    (usage : EvaluatorUsageModel Ty) (indexSubtypes : List (IdxSubtype Ty))
    (indexIsIncomplete inTryBlock : Bool) :
    (node.items.length ≠ 1 →
        getTypeOfIndexedTypedDict sub neverType anyType classType node usage indexSubtypes
            indexIsIncomplete inTryBlock
          = (some { resultParts := [IdxResultPart.unknown], isIncomplete := false },
             some (DiagnosticRuleModel.reportGeneralTypeIssues,
                   TDIndexDiagKind.typeArgsMismatchOne))) ∧
    (∀ item, node.items = [item] →
        (node.trailingComma = true ∨ item.hasName = true ∨
          ¬item.argumentCategory = ArgumentCategoryModel.simple) →
        getTypeOfIndexedTypedDict sub neverType anyType classType node usage indexSubtypes
            indexIsIncomplete inTryBlock
          = (none, none)) := by
  obtain ⟨items, tc⟩ := node
  constructor
  · intro hlen
    match items with
    | [] => rfl
    | a :: b :: rest => rfl
    | [a] => exact absurd rfl hlen
  · intro item hitems hbad
    subst hitems
    simp only at hbad ⊢
    have hcond : ((tc || item.hasName)
        || !(decide (item.argumentCategory = ArgumentCategoryModel.simple))) = true := by
      rcases hbad with h | h | h
      · simp [h]
      · simp [h]
      · simp [h]
    simp only [getTypeOfIndexedTypedDict]
    rw [if_pos]
    rcases hbad with h | h | h
    · simp [h]
    · simp [h]
    · simp [h]

/-- Claim C8 witness: the shape theorem evaluated at concrete nodes — an
empty index list is diagnosed and yields an Unknown result, and a single
keyword argument falls through with no result and no diagnostic. -/
theorem getTypeOfIndexedTypedDict_arg_shape_witness :
    (getTypeOfIndexedTypedDict Nat.ble 0 0 c9Class
        { items := [], trailingComma := false } c8Usage [] false false
      = (some { resultParts := [IdxResultPart.unknown], isIncomplete := false },
         some (DiagnosticRuleModel.reportGeneralTypeIssues,
               TDIndexDiagKind.typeArgsMismatchOne))) ∧
    (getTypeOfIndexedTypedDict Nat.ble 0 0 c9Class
        { items := [IndexArgItem.mk true ArgumentCategoryModel.simple],
          trailingComma := false } c8Usage [] false false
      = (none, none)) :=
  ⟨(getTypeOfIndexedTypedDict_arg_shape Nat.ble 0 0 c9Class
      { items := [], trailingComma := false } c8Usage [] false false).1 (by decide),
   (getTypeOfIndexedTypedDict_arg_shape Nat.ble 0 0 c9Class
      { items := [IndexArgItem.mk true ArgumentCategoryModel.simple],
        trailingComma := false } c8Usage [] false false).2
     (IndexArgItem.mk true ArgumentCategoryModel.simple) rfl (Or.inr (Or.inl rfl))⟩
